import Mathlib

/-!
Shallow embedding of the Strelka small-variant-caller core
(`errorAnalysis/BasecallErrorCounts.cpp`, `starling_continuous_variant_caller.cpp`,
`IndelErrorModel.cpp`) together with proofs of the specification claims.

Integer counts are modelled as `ℕ`, `std::map` containers either as
total functions with zero default (for the merge algebra) or as
association lists in map-iteration order (where the code enumerates map
entries), and `double` values as `ℝ` (as `ℚ` where the code only
compares exact decimal thresholds against count ratios).
-/

/-! ## Integer quantization (`blt_util/IntegerLogCompressor.hh`)

Modelled from the spec: `compressInt` itself is declared in
`blt_util/IntegerLogCompressor.hh`, which is not part of the provided
sources; the spec states that each count is "rounded to a bounded number
of significant bits (a fixed bit budget, e.g. 4 bits)".  A value whose
bit length fits the budget is returned unchanged; otherwise the value is
rounded (half-up) to the nearest multiple of `2 ^ shift`, keeping its
top `bitCount` significant bits, where `shift` is bit length minus
`bitCount`. -/
def compressInt (v : ℕ) (bitCount : ℕ) : ℕ :=
  if v < 2 ^ bitCount then v
  else
    let shift := Nat.log 2 v + 1 - bitCount
    ((v + 2 ^ (shift - 1)) / 2 ^ shift) * 2 ^ shift

theorem compressInt_of_lt {v b : ℕ} (h : v < 2 ^ b) : compressInt v b = v := by
  simp [compressInt, h]

theorem compressInt_zero (b : ℕ) : compressInt 0 b = 0 :=
  compressInt_of_lt (by positivity)

/-- Helper: value and bit-length bounds for the quantized output in the
non-trivial branch. -/
theorem compressInt_of_le {v b : ℕ} (_hb : 1 ≤ b) (h : 2 ^ b ≤ v) :
    compressInt v b =
      ((v + 2 ^ (Nat.log 2 v + 1 - b - 1)) / 2 ^ (Nat.log 2 v + 1 - b)) *
        2 ^ (Nat.log 2 v + 1 - b) := by
  have : ¬ v < 2 ^ b := not_lt.mpr h
  simp [compressInt, this]

theorem compressInt_idem {b : ℕ} (hb : 1 ≤ b) (v : ℕ) :
    compressInt (compressInt v b) b = compressInt v b := by
  by_cases hlt : v < 2 ^ b
  · rw [compressInt_of_lt hlt, compressInt_of_lt hlt]
  · have hv : 2 ^ b ≤ v := not_lt.mp hlt
    have hp : ∀ n : ℕ, 0 < 2 ^ n := fun n => by positivity
    have hv0 : v ≠ 0 := by
      intro h0
      rw [h0] at hv
      have := hp b
      omega
    set L := Nat.log 2 v with hL
    have hbL : b ≤ L := by
      rw [hL]
      exact (Nat.pow_le_iff_le_log one_lt_two hv0).mp hv
    -- write L = s + (b - 1) with s = L + 1 - b ≥ 1
    obtain ⟨B, hB⟩ : ∃ B, b = B + 1 := ⟨b - 1, (Nat.succ_pred_eq_of_pos hb).symm⟩
    set s := L + 1 - b with hs
    have hs1 : 1 ≤ s := by omega
    have hLs : L = s + B := by omega
    have hpowL : 2 ^ L ≤ v := Nat.pow_log_le_self 2 hv0
    have hvlt : v < 2 ^ (L + 1) := Nat.lt_pow_succ_log_self one_lt_two v
    set q := (v + 2 ^ (s - 1)) / 2 ^ s with hq
    have hrw : compressInt v b = q * 2 ^ s := by
      rw [compressInt_of_le hb hv]
    have hqlow : 2 ^ B ≤ q := by
      rw [hq]
      rw [Nat.le_div_iff_mul_le (hp s)]
      calc 2 ^ B * 2 ^ s = 2 ^ L := by rw [hLs]; ring
        _ ≤ v := hpowL
        _ ≤ v + 2 ^ (s - 1) := Nat.le_add_right _ _
    have hqhigh : q ≤ 2 ^ (B + 1) := by
      rw [hq]
      have : v + 2 ^ (s - 1) < (2 ^ (B + 1) + 1) * 2 ^ s := by
        have h1 : 2 ^ (s - 1) < 2 ^ s := by
          exact Nat.pow_lt_pow_right one_lt_two (by omega)
        have h2 : (2 ^ (B + 1) + 1) * 2 ^ s = 2 ^ (L + 1) + 2 ^ s := by
          have : 2 ^ (B + 1) * 2 ^ s = 2 ^ (L + 1) := by
            rw [← pow_add]; congr 1; omega
          rw [add_mul, this, one_mul]
        omega
      have := Nat.div_lt_iff_lt_mul (hp s) |>.mpr this
      omega
    rw [hrw]
    rcases lt_or_eq_of_le hqhigh with hqlt | hqeq
    · -- no carry: the result has the same bit length, same shift, and the
      -- rounding summand vanishes
      have hrlow : 2 ^ L ≤ q * 2 ^ s := by
        calc 2 ^ L = 2 ^ B * 2 ^ s := by rw [hLs]; ring
          _ ≤ q * 2 ^ s := Nat.mul_le_mul_right _ hqlow
      have hrhigh : q * 2 ^ s < 2 ^ (L + 1) := by
        calc q * 2 ^ s < 2 ^ (B + 1) * 2 ^ s := (Nat.mul_lt_mul_right (hp s)).mpr hqlt
          _ = 2 ^ (L + 1) := by rw [← pow_add]; congr 1; omega
      have hlogr : Nat.log 2 (q * 2 ^ s) = L :=
        Nat.log_eq_of_pow_le_of_lt_pow hrlow hrhigh
      have hge : 2 ^ b ≤ q * 2 ^ s := le_trans (Nat.pow_le_pow_right (by norm_num) hbL) hrlow
      rw [compressInt_of_le hb hge, hlogr]
      have hdiv : (q * 2 ^ s + 2 ^ (L + 1 - b - 1)) / 2 ^ (L + 1 - b) = q := by
        have hsb : L + 1 - b = s := rfl
        rw [hsb]
        have h1 : 2 ^ (s - 1) < 2 ^ s := Nat.pow_lt_pow_right one_lt_two (by omega)
        rw [Nat.add_div (hp s)]
        have e1 : q * 2 ^ s / 2 ^ s = q := Nat.mul_div_cancel _ (hp s)
        have e2 : 2 ^ (s - 1) / 2 ^ s = 0 := Nat.div_eq_of_lt h1
        have e3 : q * 2 ^ s % 2 ^ s = 0 := Nat.mul_mod_left _ _
        have e4 : 2 ^ (s - 1) % 2 ^ s = 2 ^ (s - 1) := Nat.mod_eq_of_lt h1
        rw [e1, e2, e3, e4]
        simp [not_le.mpr h1]
      rw [hdiv]
    · -- carry: the rounded value is the next power of two, which re-rounds
      -- to itself
      have hr : q * 2 ^ s = 2 ^ (L + 1) := by
        rw [hqeq, ← pow_add]
        congr 1
        omega
      rw [hr]
      have hge : 2 ^ b ≤ 2 ^ (L + 1) := Nat.pow_le_pow_right (by norm_num) (by omega)
      rw [compressInt_of_le hb hge]
      have hlogr : Nat.log 2 (2 ^ (L + 1)) = L + 1 := Nat.log_pow one_lt_two _
      rw [hlogr]
      have hsb : L + 1 + 1 - b = s + 1 := by omega
      rw [hsb]
      have hdiv : (2 ^ (L + 1) + 2 ^ (s + 1 - 1)) / 2 ^ (s + 1) = 2 ^ B := by
        have e0 : s + 1 - 1 = s := rfl
        rw [e0]
        have e1 : 2 ^ (L + 1) = 2 ^ B * 2 ^ (s + 1) := by
          rw [← pow_add]; congr 1; omega
        have h1 : 2 ^ s < 2 ^ (s + 1) := Nat.pow_lt_pow_right one_lt_two (by omega)
        rw [e1, Nat.add_div (hp (s + 1))]
        have e2 : 2 ^ B * 2 ^ (s + 1) / 2 ^ (s + 1) = 2 ^ B :=
          Nat.mul_div_cancel _ (hp (s + 1))
        have e3 : 2 ^ s / 2 ^ (s + 1) = 0 := Nat.div_eq_of_lt h1
        have e4 : 2 ^ B * 2 ^ (s + 1) % 2 ^ (s + 1) = 0 := Nat.mul_mod_left _ _
        have e5 : 2 ^ s % 2 ^ (s + 1) = 2 ^ s := Nat.mod_eq_of_lt h1
        rw [e2, e3, e4, e5]
        simp [not_le.mpr h1]
      rw [hdiv]
      rw [← pow_add]
      congr 1
      omega

/-! ## Per-strand basecall summaries (`BasecallErrorCounts.hh` / `.cpp`)

`StrandBasecallCounts.altAlleleCount` is a `std::map` from
basecall-error phred level to count; it is modelled as its association
list in ascending key order (the map's iteration order).  The
`operator<` used by `BasecallErrorContextObservation::compressCounts`
to canonicalize strand order is declared in the header (not in src) and
is modelled from the spec as the natural total ordering on the summary:
lexicographic on the reference count and then on the (key, value)
sequence of the alt map, exactly the shape of the default
`std::lexicographical_compare` on map entries. -/

structure StrandBasecallCounts where
  refAlleleCount : ℕ
  altAlleleCount : List (ℕ × ℕ)
deriving DecidableEq, Repr

/-- Lexicographic comparison of two alt-count maps viewed as their
entry sequences (`std::lexicographical_compare` with `std::pair`
ordering on entries). -/
def altMapLtB : List (ℕ × ℕ) → List (ℕ × ℕ) → Bool
  | _, [] => false
  | [], _ :: _ => true
  | a :: as, b :: bs =>
    if a.1 < b.1 then true
    else if b.1 < a.1 then false
    else if a.2 < b.2 then true
    else if b.2 < a.2 then false
    else altMapLtB as bs

/-- Modelled from the spec: the "total ordering" on per-strand
summaries used for canonicalization (`operator<`, header not in src). -/
def StrandBasecallCounts.ltB (a b : StrandBasecallCounts) : Bool :=
  if a.refAlleleCount < b.refAlleleCount then true
  else if b.refAlleleCount < a.refAlleleCount then false
  else altMapLtB a.altAlleleCount b.altAlleleCount

theorem altMapLtB_asymm : ∀ l₁ l₂, altMapLtB l₁ l₂ = true → altMapLtB l₂ l₁ = false := by
  intro l₁
  induction l₁ with
  | nil =>
    intro l₂ h
    cases l₂ with
    | nil => simpa [altMapLtB] using h
    | cons b bs => simp [altMapLtB]
  | cons a as ih =>
    intro l₂ h
    cases l₂ with
    | nil => simpa [altMapLtB] using h
    | cons b bs =>
      simp only [altMapLtB] at h ⊢
      split_ifs at h ⊢ <;> first | rfl | omega | exact ih bs h | simp_all

theorem altMapLtB_eq_of_not_lt :
    ∀ l₁ l₂, altMapLtB l₁ l₂ = false → altMapLtB l₂ l₁ = false → l₁ = l₂ := by
  intro l₁
  induction l₁ with
  | nil =>
    intro l₂ h₁ h₂
    cases l₂ with
    | nil => rfl
    | cons b bs => simp [altMapLtB] at h₁
  | cons a as ih =>
    intro l₂ h₁ h₂
    cases l₂ with
    | nil => simp [altMapLtB] at h₂
    | cons b bs =>
      simp only [altMapLtB] at h₁ h₂
      split_ifs at h₁ h₂ <;> try simp_all
      have hk : a.1 = b.1 := by omega
      have hv : a.2 = b.2 := by omega
      have : a = b := Prod.ext hk hv
      subst this
      exact ⟨rfl, ih bs h₁ h₂⟩

theorem StrandBasecallCounts.ltB_asymm {a b : StrandBasecallCounts}
    (h : StrandBasecallCounts.ltB a b = true) : StrandBasecallCounts.ltB b a = false := by
  unfold StrandBasecallCounts.ltB at h ⊢
  split_ifs at h ⊢ <;> first | rfl | omega | exact altMapLtB_asymm _ _ h | simp_all

theorem StrandBasecallCounts.ltB_eq_of_not_lt {a b : StrandBasecallCounts}
    (h₁ : StrandBasecallCounts.ltB a b = false)
    (h₂ : StrandBasecallCounts.ltB b a = false) : a = b := by
  unfold StrandBasecallCounts.ltB at h₁ h₂
  split_ifs at h₁ h₂ <;> try simp_all
  cases a with
  | mk ra la =>
    cases b with
    | mk rb lb =>
      simp only [mk.injEq]
      constructor
      · simp_all
        omega
      · exact altMapLtB_eq_of_not_lt _ _ h₁ h₂

/-- `StrandBasecallCounts::compressCounts` (BasecallErrorCounts.cpp):
quantize the reference count and every alt count to a 4-bit significant
figure budget. -/
def StrandBasecallCounts.compressCounts (s : StrandBasecallCounts) : StrandBasecallCounts :=
  { refAlleleCount := compressInt s.refAlleleCount 4
    altAlleleCount := s.altAlleleCount.map fun keyVal => (keyVal.1, compressInt keyVal.2 4) }

theorem StrandBasecallCounts.compressCounts_strand_idem (s : StrandBasecallCounts) :
    s.compressCounts.compressCounts = s.compressCounts := by
  unfold StrandBasecallCounts.compressCounts
  simp only [mk.injEq, List.map_map]
  refine ⟨compressInt_idem (by norm_num) _, ?_⟩
  apply List.map_congr_left
  intro a _
  have := compressInt_idem (b := 4) (by norm_num) a.2
  simp [Function.comp, this]

theorem StrandBasecallCounts.compressCounts_alt_nil (s : StrandBasecallCounts) :
    s.compressCounts.altAlleleCount = [] ↔ s.altAlleleCount = [] := by
  simp [StrandBasecallCounts.compressCounts]

/-- Observation pattern: the pair of per-strand summaries for one site
(`BasecallErrorContextObservation`). -/
structure BasecallErrorContextObservation where
  strand0 : StrandBasecallCounts
  strand1 : StrandBasecallCounts
deriving DecidableEq, Repr

/-- First statement block of
`BasecallErrorContextObservation::compressCounts`: if no alts exist on
either strand, sum the reference counts into strand0 and zero
strand1's. -/
def BasecallErrorContextObservation.collapseNoAlt
    (p : BasecallErrorContextObservation) : BasecallErrorContextObservation :=
  if p.strand0.altAlleleCount = [] ∧ p.strand1.altAlleleCount = [] then
    { strand0 := { refAlleleCount := p.strand0.refAlleleCount + p.strand1.refAlleleCount
                   altAlleleCount := p.strand0.altAlleleCount }
      strand1 := { refAlleleCount := 0
                   altAlleleCount := p.strand1.altAlleleCount } }
  else p

/-- Final statement of `BasecallErrorContextObservation::compressCounts`:
`if (strand0 < strand1) std::swap(strand0, strand1)`. -/
def orderStrands (s0 s1 : StrandBasecallCounts) : BasecallErrorContextObservation :=
  if StrandBasecallCounts.ltB s0 s1 then ⟨s1, s0⟩ else ⟨s0, s1⟩

/-- `BasecallErrorContextObservation::compressCounts`: zero-alt
collapse, per-strand quantization, then canonical strand ordering. -/
def BasecallErrorContextObservation.compressCounts
    (p : BasecallErrorContextObservation) : BasecallErrorContextObservation :=
  orderStrands p.collapseNoAlt.strand0.compressCounts p.collapseNoAlt.strand1.compressCounts

theorem StrandBasecallCounts.ltB_bot (a : StrandBasecallCounts) :
    StrandBasecallCounts.ltB a ⟨0, []⟩ = false := by
  unfold StrandBasecallCounts.ltB
  dsimp only
  split_ifs with h1 h2
  · omega
  · rfl
  · cases a.altAlleleCount <;> rfl

theorem orderStrands_canonical (s0 s1 : StrandBasecallCounts) :
    StrandBasecallCounts.ltB (orderStrands s0 s1).strand0 (orderStrands s0 s1).strand1 =
      false := by
  unfold orderStrands
  by_cases h : StrandBasecallCounts.ltB s0 s1
  · rw [if_pos h]
    exact StrandBasecallCounts.ltB_asymm h
  · rw [if_neg h]
    exact Bool.eq_false_iff.mpr h

theorem orderStrands_comm (s0 s1 : StrandBasecallCounts) :
    orderStrands s1 s0 = orderStrands s0 s1 := by
  unfold orderStrands
  by_cases h : StrandBasecallCounts.ltB s0 s1
  · rw [if_pos h, if_neg (by simp [StrandBasecallCounts.ltB_asymm h])]
  · rw [if_neg h]
    by_cases h' : StrandBasecallCounts.ltB s1 s0
    · rw [if_pos h']
    · rw [if_neg h']
      rw [StrandBasecallCounts.ltB_eq_of_not_lt
        (Bool.eq_false_iff.mpr h) (Bool.eq_false_iff.mpr h')]

theorem orderStrands_of_not_lt {s0 s1 : StrandBasecallCounts}
    (h : StrandBasecallCounts.ltB s0 s1 = false) : orderStrands s0 s1 = ⟨s0, s1⟩ := by
  unfold orderStrands
  rw [if_neg (by simp [h])]

/-- Evaluation of the pattern canonicalization when neither strand has
alt evidence. -/
theorem BasecallErrorContextObservation.compressCounts_of_no_alt
    {p : BasecallErrorContextObservation}
    (h0 : p.strand0.altAlleleCount = []) (h1 : p.strand1.altAlleleCount = []) :
    p.compressCounts =
      ⟨⟨compressInt (p.strand0.refAlleleCount + p.strand1.refAlleleCount) 4, []⟩, ⟨0, []⟩⟩ := by
  unfold BasecallErrorContextObservation.compressCounts
     BasecallErrorContextObservation.collapseNoAlt
  rw [if_pos ⟨h0, h1⟩]
  dsimp only
  rw [show StrandBasecallCounts.compressCounts
        ⟨p.strand0.refAlleleCount + p.strand1.refAlleleCount, p.strand0.altAlleleCount⟩ =
        ⟨compressInt (p.strand0.refAlleleCount + p.strand1.refAlleleCount) 4, []⟩ by
      simp [StrandBasecallCounts.compressCounts, h0]]
  rw [show StrandBasecallCounts.compressCounts ⟨0, p.strand1.altAlleleCount⟩ =
        ⟨0, []⟩ by simp [StrandBasecallCounts.compressCounts, h1, compressInt_zero]]
  exact orderStrands_of_not_lt (StrandBasecallCounts.ltB_bot _)

/-- Evaluation of the pattern canonicalization when some strand has alt
evidence. -/
theorem BasecallErrorContextObservation.compressCounts_of_alt
    {p : BasecallErrorContextObservation}
    (h : ¬ (p.strand0.altAlleleCount = [] ∧ p.strand1.altAlleleCount = [])) :
    p.compressCounts = orderStrands p.strand0.compressCounts p.strand1.compressCounts := by
  unfold BasecallErrorContextObservation.compressCounts
     BasecallErrorContextObservation.collapseNoAlt
  rw [if_neg h]

theorem BasecallErrorContextObservation.compressCounts_pattern_idem
    (p : BasecallErrorContextObservation) :
    p.compressCounts.compressCounts = p.compressCounts := by
  by_cases h : p.strand0.altAlleleCount = [] ∧ p.strand1.altAlleleCount = []
  · rw [BasecallErrorContextObservation.compressCounts_of_no_alt h.1 h.2]
    rw [BasecallErrorContextObservation.compressCounts_of_no_alt rfl rfl]
    simp [compressInt_idem (b := 4) (by norm_num)]
  · rw [BasecallErrorContextObservation.compressCounts_of_alt h]
    by_cases hlt : StrandBasecallCounts.ltB p.strand0.compressCounts p.strand1.compressCounts
    · rw [show orderStrands p.strand0.compressCounts p.strand1.compressCounts =
          ⟨p.strand1.compressCounts, p.strand0.compressCounts⟩ by
        unfold orderStrands; rw [if_pos hlt]]
      have h' : ¬ ((⟨p.strand1.compressCounts, p.strand0.compressCounts⟩ :
          BasecallErrorContextObservation).strand0.altAlleleCount = [] ∧
          (⟨p.strand1.compressCounts, p.strand0.compressCounts⟩ :
          BasecallErrorContextObservation).strand1.altAlleleCount = []) := by
        simpa [StrandBasecallCounts.compressCounts_alt_nil, and_comm] using h
      rw [BasecallErrorContextObservation.compressCounts_of_alt h']
      dsimp only
      rw [StrandBasecallCounts.compressCounts_strand_idem, StrandBasecallCounts.compressCounts_strand_idem]
      exact orderStrands_of_not_lt (StrandBasecallCounts.ltB_asymm hlt)
    · rw [orderStrands_of_not_lt (Bool.eq_false_iff.mpr hlt)]
      have h' : ¬ ((⟨p.strand0.compressCounts, p.strand1.compressCounts⟩ :
          BasecallErrorContextObservation).strand0.altAlleleCount = [] ∧
          (⟨p.strand0.compressCounts, p.strand1.compressCounts⟩ :
          BasecallErrorContextObservation).strand1.altAlleleCount = []) := by
        simpa [StrandBasecallCounts.compressCounts_alt_nil] using h
      rw [BasecallErrorContextObservation.compressCounts_of_alt h']
      dsimp only
      rw [StrandBasecallCounts.compressCounts_strand_idem, StrandBasecallCounts.compressCounts_strand_idem]
      exact orderStrands_of_not_lt (Bool.eq_false_iff.mpr hlt)

theorem BasecallErrorContextObservation.compressCounts_swap
    (p : BasecallErrorContextObservation) :
    BasecallErrorContextObservation.compressCounts ⟨p.strand1, p.strand0⟩ =
      p.compressCounts := by
  by_cases h : p.strand0.altAlleleCount = [] ∧ p.strand1.altAlleleCount = []
  · rw [BasecallErrorContextObservation.compressCounts_of_no_alt h.1 h.2]
    rw [BasecallErrorContextObservation.compressCounts_of_no_alt (p := ⟨p.strand1, p.strand0⟩)
      h.2 h.1]
    dsimp only
    rw [Nat.add_comm]
  · have h' : ¬ ((⟨p.strand1, p.strand0⟩ :
        BasecallErrorContextObservation).strand0.altAlleleCount = [] ∧
        (⟨p.strand1, p.strand0⟩ :
        BasecallErrorContextObservation).strand1.altAlleleCount = []) := by
      simpa [and_comm] using h
    rw [BasecallErrorContextObservation.compressCounts_of_alt h]
    rw [BasecallErrorContextObservation.compressCounts_of_alt h']
    dsimp only
    exact orderStrands_comm _ _

theorem BasecallErrorContextObservation.compressCounts_canonical
    (p : BasecallErrorContextObservation) :
    StrandBasecallCounts.ltB p.compressCounts.strand0 p.compressCounts.strand1 = false := by
  by_cases h : p.strand0.altAlleleCount = [] ∧ p.strand1.altAlleleCount = []
  · rw [BasecallErrorContextObservation.compressCounts_of_no_alt h.1 h.2]
    exact StrandBasecallCounts.ltB_bot _
  · rw [BasecallErrorContextObservation.compressCounts_of_alt h]
    exact orderStrands_canonical _ _

/-- Raw two-strand quality-resolved tallies for one site
(`BasecallErrorContextInputObservation`): `ref[0]`, `ref[1]`, `alt[0]`,
`alt[1]` are maps from basecall-error phred level to count, modelled as
association lists (`ref0` is the forward strand, index 0). -/
structure BasecallErrorContextInputObservation where
  ref0 : List (ℕ × ℕ)
  ref1 : List (ℕ × ℕ)
  alt0 : List (ℕ × ℕ)
  alt1 : List (ℕ × ℕ)
deriving DecidableEq, Repr

/-- Sum of the values of a quality→count map. -/
def sumValues (l : List (ℕ × ℕ)) : ℕ := (l.map Prod.snd).sum

/-- The compressed observation pattern built by
`BasecallErrorContextObservationData::addObservation` before it is
counted into the aggregation map: per strand, the quality-resolved
reference counts are summed into a single reference count, the alt map
is copied, and the resulting two-strand pattern is canonicalized with
`compressCounts`.  (The other effects of `addObservation` — merging
`obs.ref` into `refAlleleBasecallErrorPhredProbs` and incrementing the
pattern's occurrence count — do not affect the produced pattern.) -/
def BasecallErrorContextInputObservation.compressedPattern
    (obs : BasecallErrorContextInputObservation) : BasecallErrorContextObservation :=
  BasecallErrorContextObservation.compressCounts
    ⟨⟨sumValues obs.ref0, obs.alt0⟩, ⟨sumValues obs.ref1, obs.alt1⟩⟩

/-! ## The mergeable aggregation structure (`BasecallErrorCounts.cpp`)

For the merge algebra the `std::map` members are modelled as total
functions with zero default: `mergeMapKeys(in, out)` adds the value of
every key of `in` into `out`, inserting missing keys, so on the
zero-default view it is pointwise addition, and a key absent from one
side behaves as a zero count. -/

/-- Genomic context key (`BasecallErrorContext`). -/
structure BasecallErrorContext where
  repeatCount : ℕ
deriving DecidableEq

/-- Aggregated statistics for one context
(`BasecallErrorContextObservationData`): canonical observation pattern →
occurrence count, and basecall-error phred level → total
reference-allele occurrence count. -/
structure BasecallErrorContextObservationData where
  data : BasecallErrorContextObservation → ℕ
  refAlleleBasecallErrorPhredProbs : ℕ → ℕ

/-- `BasecallErrorContextObservationData::merge`:
`mergeMapKeys(in.data, data)` and
`mergeMapKeys(in.refAlleleBasecallErrorPhredProbs, refAlleleBasecallErrorPhredProbs)`. -/
def BasecallErrorContextObservationData.merge
    (self inData : BasecallErrorContextObservationData) :
    BasecallErrorContextObservationData where
  data := fun key => self.data key + inData.data key
  refAlleleBasecallErrorPhredProbs := fun qual =>
    self.refAlleleBasecallErrorPhredProbs qual + inData.refAlleleBasecallErrorPhredProbs qual

/-- Per-context payload (`BasecallErrorData`): observation counts plus
the four skip-reason counters. -/
structure BasecallErrorData where
  counts : BasecallErrorContextObservationData
  excludedRegionSkipped : ℕ
  depthSkipped : ℕ
  emptySkipped : ℕ
  noiseSkipped : ℕ

/-- `BasecallErrorData::merge`: merge the observation counts and add the
four skip counters. -/
def BasecallErrorData.merge (self inData : BasecallErrorData) : BasecallErrorData where
  counts := self.counts.merge inData.counts
  excludedRegionSkipped := self.excludedRegionSkipped + inData.excludedRegionSkipped
  depthSkipped := self.depthSkipped + inData.depthSkipped
  emptySkipped := self.emptySkipped + inData.emptySkipped
  noiseSkipped := self.noiseSkipped + inData.noiseSkipped

/-- Whole aggregator (`BasecallErrorCounts`): context → per-context
payload, zero-default (an absent context is an all-zero payload). -/
structure BasecallErrorCounts where
  _data : BasecallErrorContext → BasecallErrorData

/-- `BasecallErrorCounts::merge`: per context, insert the incoming
payload if the context is absent, otherwise merge payloads — on the
zero-default view, pointwise `BasecallErrorData::merge`. -/
def BasecallErrorCounts.merge (self inCounts : BasecallErrorCounts) : BasecallErrorCounts where
  _data := fun context => (self._data context).merge (inCounts._data context)

theorem observationData_merge_assoc
    (a b c : BasecallErrorContextObservationData) :
    (a.merge b).merge c = a.merge (b.merge c) := by
  cases a
  cases b
  cases c
  unfold BasecallErrorContextObservationData.merge
  simp only [BasecallErrorContextObservationData.mk.injEq]
  constructor <;> funext x <;> omega

theorem observationData_merge_comm
    (a b : BasecallErrorContextObservationData) :
    a.merge b = b.merge a := by
  cases a
  cases b
  unfold BasecallErrorContextObservationData.merge
  simp only [BasecallErrorContextObservationData.mk.injEq]
  constructor <;> funext x <;> omega

theorem errorData_merge_assoc (a b c : BasecallErrorData) :
    (a.merge b).merge c = a.merge (b.merge c) := by
  cases a
  cases b
  cases c
  unfold BasecallErrorData.merge
  simp only [BasecallErrorData.mk.injEq]
  refine ⟨observationData_merge_assoc _ _ _, ?_, ?_, ?_, ?_⟩ <;> omega

theorem errorData_merge_comm (a b : BasecallErrorData) :
    a.merge b = b.merge a := by
  cases a
  cases b
  unfold BasecallErrorData.merge
  simp only [BasecallErrorData.mk.injEq]
  refine ⟨observationData_merge_comm _ _, ?_, ?_, ?_, ?_⟩ <;> omega

theorem errorCounts_merge_assoc (a b c : BasecallErrorCounts) :
    (a.merge b).merge c = a.merge (b.merge c) := by
  cases a
  cases b
  cases c
  unfold BasecallErrorCounts.merge
  simp only [BasecallErrorCounts.mk.injEq]
  funext context
  exact errorData_merge_assoc _ _ _

theorem errorCounts_merge_comm (a b : BasecallErrorCounts) :
    a.merge b = b.merge a := by
  cases a
  cases b
  unfold BasecallErrorCounts.merge
  simp only [BasecallErrorCounts.mk.injEq]
  funext context
  exact errorData_merge_comm _ _

/-! ## Export for model fitting
(`BasecallErrorContextObservationData::getExportData`)

`getExportData` enumerates the map entries, so here the aggregated
statistics are viewed as their entry lists in map-iteration order
(strictly ascending keys for a `std::map`; the proofs below do not need
that invariant).  The conversion of a pattern's alt-count map performs
`qualIndex.find(qual)->second` without checking for `end()`; that
dereference is modelled by returning `none` when the level is absent. -/

/-- Entry-list view of `BasecallErrorContextObservationData` used by the
export step. -/
structure BasecallErrorContextObservationDataEntries where
  data : List (BasecallErrorContextObservation × ℕ)
  refAlleleBasecallErrorPhredProbs : List (ℕ × ℕ)
deriving DecidableEq, Repr

/-- `BasecallErrorContextObservationExportStrandObservation`: reference
count plus a fixed-width alt-count vector indexed by quality level. -/
structure BasecallErrorContextObservationExportStrandObservation where
  refAlleleCount : ℕ
  altAlleleCount : List ℕ
deriving DecidableEq, Repr

/-- `BasecallErrorContextObservationExportObservation`. -/
structure BasecallErrorContextObservationExportObservation where
  strand0 : BasecallErrorContextObservationExportStrandObservation
  strand1 : BasecallErrorContextObservationExportStrandObservation
deriving DecidableEq, Repr

/-- `BasecallErrorContextObservationExportData`. -/
structure BasecallErrorContextObservationExportData where
  altAlleleBasecallErrorPhredProbLevels : List ℕ
  refCount : List ℕ
  observations : List (BasecallErrorContextObservationExportObservation × ℕ)
deriving DecidableEq, Repr

/-- The loop `for (const auto& qualCount : si.altAlleleCount)
se.altAlleleCount[qualIndex.find(qualCount.first)->second] = qualCount.second;`
— `none` models the end-iterator dereference when a quality level is
missing from `qualIndex`. -/
def setAltCounts (levels : List ℕ) : List (ℕ × ℕ) → List ℕ → Option (List ℕ)
  | [], acc => some acc
  | qualCount :: rest, acc =>
    match levels.indexOf? qualCount.1 with
    | none => none
    | some i => setAltCounts levels rest (acc.set i qualCount.2)

/-- `strand2ExportStrand`: convert one strand's compressed counts to the
exported fixed-width form. -/
def strand2ExportStrand (levels : List ℕ) (si : StrandBasecallCounts) :
    Option BasecallErrorContextObservationExportStrandObservation :=
  (setAltCounts levels si.altAlleleCount (List.replicate levels.length 0)).map
    fun alt => ⟨si.refAlleleCount, alt⟩


/-- The observation-conversion loop of `getExportData`. -/
def exportObservations (levels : List ℕ) :
    List (BasecallErrorContextObservation × ℕ) →
      Option (List (BasecallErrorContextObservationExportObservation × ℕ))
  | [] => some []
  | keyVal :: rest =>
    (strand2ExportStrand levels keyVal.1.strand0).bind fun e0 =>
      (strand2ExportStrand levels keyVal.1.strand1).bind fun e1 =>
        (exportObservations levels rest).map fun es => (⟨e0, e1⟩, keyVal.2) :: es

/-- `BasecallErrorContextObservationData::getExportData`: the exported
quality-level list is built from the reference-allele observations
only, `refCount` is the reference count at each exported level, and
every aggregated pattern is converted to the fixed-width export form. -/
def BasecallErrorContextObservationDataEntries.getExportData
    (self : BasecallErrorContextObservationDataEntries) :
    Option BasecallErrorContextObservationExportData :=
  let levels := self.refAlleleBasecallErrorPhredProbs.map Prod.fst
  let refCount := levels.map fun qual =>
    ((self.refAlleleBasecallErrorPhredProbs.lookup qual).getD 0)
  (exportObservations levels self.data).map fun obs => ⟨levels, refCount, obs⟩

theorem indexOf?_none_iff {a : ℕ} {l : List ℕ} : l.indexOf? a = none ↔ a ∉ l := by
  rw [List.indexOf?_eq_none_iff]
  constructor
  · intro h hmem
    exact (by simpa using h a hmem)
  · intro h x hx
    simp only [beq_iff_eq]
    intro he
    exact h (he ▸ hx)

theorem setAltCounts_isSome_iff (levels : List ℕ) :
    ∀ (l : List (ℕ × ℕ)) (acc : List ℕ),
      (setAltCounts levels l acc).isSome ↔ ∀ qc ∈ l, qc.1 ∈ levels := by
  intro l
  induction l with
  | nil => simp [setAltCounts]
  | cons qc rest ih =>
    intro acc
    unfold setAltCounts
    cases hidx : levels.indexOf? qc.1 with
    | none =>
      have hnm : qc.1 ∉ levels := indexOf?_none_iff.mp hidx
      simp [hnm]
    | some i =>
      have hmem : qc.1 ∈ levels := by
        by_contra hmem
        rw [indexOf?_none_iff.mpr hmem] at hidx
        cases hidx
      rw [ih (acc.set i qc.2)]
      simp [hmem]

theorem strand2ExportStrand_isSome_iff (levels : List ℕ) (si : StrandBasecallCounts) :
    (strand2ExportStrand levels si).isSome ↔ ∀ qc ∈ si.altAlleleCount, qc.1 ∈ levels := by
  have h := setAltCounts_isSome_iff levels si.altAlleleCount (List.replicate levels.length 0)
  unfold strand2ExportStrand
  cases hset : setAltCounts levels si.altAlleleCount (List.replicate levels.length 0) with
  | none =>
    rw [hset] at h
    simpa using h
  | some v =>
    rw [hset] at h
    simpa using h

theorem exportObservations_isSome_iff (levels : List ℕ) :
    ∀ l : List (BasecallErrorContextObservation × ℕ),
      (exportObservations levels l).isSome ↔
        ∀ kv ∈ l, (∀ qc ∈ kv.1.strand0.altAlleleCount, qc.1 ∈ levels) ∧
          (∀ qc ∈ kv.1.strand1.altAlleleCount, qc.1 ∈ levels) := by
  intro l
  induction l with
  | nil => simp [exportObservations]
  | cons kv rest ih =>
    unfold exportObservations
    rw [List.forall_mem_cons]
    have hs0 := strand2ExportStrand_isSome_iff levels kv.1.strand0
    have hs1 := strand2ExportStrand_isSome_iff levels kv.1.strand1
    cases h0 : strand2ExportStrand levels kv.1.strand0 with
    | none =>
      rw [h0] at hs0
      simp only [Option.isSome_none, Bool.false_eq_true, false_iff] at hs0
      simp only [Option.none_bind, Option.isSome_none, Bool.false_eq_true, false_iff]
      intro h
      exact hs0 h.1.1
    | some e0 =>
      rw [h0] at hs0
      simp only [Option.isSome_some, true_iff] at hs0
      cases h1 : strand2ExportStrand levels kv.1.strand1 with
      | none =>
        rw [h1] at hs1
        simp only [Option.isSome_none, Bool.false_eq_true, false_iff] at hs1
        simp only [Option.some_bind, Option.none_bind, Option.isSome_none,
          Bool.false_eq_true, false_iff]
        intro h
        exact hs1 h.1.2
      | some e1 =>
        rw [h1] at hs1
        simp only [Option.isSome_some, true_iff] at hs1
        cases hr : exportObservations levels rest with
        | none =>
          rw [hr] at ih
          simp only [Option.isSome_none, Bool.false_eq_true, false_iff] at ih
          simp only [Option.some_bind, Option.map_none', Option.isSome_none,
            Bool.false_eq_true, false_iff]
          intro h
          exact ih h.2
        | some es =>
          rw [hr] at ih
          simp only [Option.isSome_some, true_iff] at ih
          simp only [Option.some_bind, Option.map_some', Option.isSome_some, true_iff]
          exact ⟨⟨hs0, hs1⟩, ih⟩

/-! ## Continuous allele caller: significance scoring and strand bias
(`starling_continuous_variant_caller.cpp`)

`double` values are modelled as `ℝ`.  The phred conversions come from
`blt_util/qscore.hh`, which is not part of the provided sources. -/

/-- Modelled from the spec: `qphred_to_error_prob` (blt_util/qscore.hh,
not in src); a phred-scaled quality `q` encodes the error probability
`10 ^ (-q/10)`. -/
noncomputable def qphred_to_error_prob (qscore : ℕ) : ℝ :=
  (10 : ℝ) ^ (-(qscore : ℝ) / 10)

/-- Modelled from the spec: `error_prob_to_qphred` (blt_util/qscore.hh,
not in src); a probability is converted to the integer-rounded
phred scale `-10·log10(p)`. -/
noncomputable def error_prob_to_qphred (prob : ℝ) : ℤ :=
  round (-10 * Real.logb 10 prob)

/-- The regularized lower incomplete gamma function
`boost::math::gamma_p(n, x)` at integer first argument `n ≥ 1`, via the
exact closed form `P(n, x) = 1 - exp(-x) · Σ_{k<n} x^k / k!`. -/
noncomputable def gamma_p (n : ℕ) (x : ℝ) : ℝ :=
  1 - Real.exp (-x) * ∑ k ∈ Finset.range n, x ^ k / (Nat.factorial k)

/-- `AssignPValue`: p-value 1.0 for zero observed counts, else the
Poisson-tail approximation through the regularized lower incomplete
gamma function at `(observedCallCount, coverage × errorRate)`. -/
noncomputable def AssignPValue (observedCallCount coverage estimatedBaseCallQuality : ℕ) : ℝ :=
  if observedCallCount = 0 then 1
  else gamma_p observedCallCount (coverage * qphred_to_error_prob estimatedBaseCallQuality)

/-- `starling_continuous_variant_caller::poisson_qscore`. -/
noncomputable def poisson_qscore (callCount coverage estimatedBaseCallQuality : ℕ)
    (maxQScore : ℤ) : ℤ :=
  let pValue := AssignPValue callCount coverage estimatedBaseCallQuality
  if pValue ≤ 0 then maxQScore
  else min maxQScore (error_prob_to_qphred pValue)

/-- `Likelihood`: zero when the observed count is zero, else the
binomial probability mass `boost::math::pdf(binomial(coverage, f), k)
= C(coverage, k) · f^k · (1-f)^(coverage-k)`. -/
noncomputable def Likelihood (coverage observedCallCount : ℕ) (expectedFrequency : ℝ) : ℝ :=
  if observedCallCount = 0 then 0
  else (coverage.choose observedCallCount : ℝ) * expectedFrequency ^ observedCallCount *
    (1 - expectedFrequency) ^ (coverage - observedCallCount)

/-- `starling_continuous_variant_caller::strand_bias`: the noise terms
are commented out in the source (they always evaluate to `-inf`), so
the `noise` argument is unused. -/
noncomputable def strand_bias (fwdAlt revAlt fwdOther revOther : ℕ) (_noise : ℝ) : ℝ :=
  let expectedVf : ℝ := (fwdAlt + revAlt : ℕ) /
    (((fwdOther : ℝ)) + (revOther : ℕ) + (fwdAlt : ℕ) + (revAlt : ℕ))
  let fwd := Real.log (Likelihood (fwdAlt + fwdOther) fwdAlt expectedVf)
  let rev := Real.log (Likelihood (revAlt + revOther) revAlt expectedVf)
  let both := Real.log (Likelihood (fwdAlt + fwdOther + revAlt + revOther) (fwdAlt + revAlt)
    expectedVf)
  max fwd rev - both

/-! ## Continuous SNP and indel calling
(`position_snp_call_continuous`, `add_indel_call`)

Variant fractions and the reporting threshold `min_het_vf` are exact
decimal values compared against ratios of counts, so they are modelled
as `ℚ`.  Quality scores are the `ℤ` results of `poisson_qscore`. -/

/-- Number of base identities (`N_BASE`, blt_util). -/
def N_BASE : ℕ := 4

/-- One pileup base call (`base_call`): base identity and strand. -/
structure base_call where
  base_id : ℕ
  is_fwd_strand : Bool

/-- `snp_pos_info`: the per-position list of good pileup calls. -/
structure snp_pos_info where
  calls : List base_call

/-- The options consumed by the continuous caller
(`starling_base_options`). -/
structure starling_base_options where
  min_het_vf : ℚ
  min_qscore : ℕ
  noise_floor : ℝ

/-- `GermlineContinuousSiteAlleleInfo(totalDepth, count, base_id)`,
with the mutable `gqx` and `strand_bias` members (defaulted to 0). -/
structure GermlineContinuousSiteAlleleInfo where
  totalDepth : ℕ
  alleleCount : ℕ
  base_id : ℕ
  gqx : ℤ
  strand_bias : ℝ

/-- Per-sample info: the genotype quality field `gq` written by the
caller. -/
structure ContinuousSampleInfo where
  gq : ℤ

/-- `GermlineContinuousSiteLocusInfo`; `refBaseId` stores
`base_to_id(locusInfo.ref)` (the `base_to_id` conversion lives in
blt_util, not in src). -/
structure GermlineContinuousSiteLocusInfo where
  spanning_deletions : ℕ
  alleleObservationCounts : ℕ → ℕ
  refBaseId : ℕ
  isForcedOutput : Bool
  samples : List ContinuousSampleInfo
  altAlleles : List GermlineContinuousSiteAlleleInfo
  is_snp : Bool
  anyVariantAlleleQuality : ℤ

/-- Modelled from the spec: `safeFrac` (blt_util/math_util.hh, not in
src) — the fraction `num/denom`, 0 when the denominator is 0. -/
def safeFrac (num denom : ℕ) : ℚ :=
  if denom = 0 then 0 else (num : ℚ) / denom

/-- The `generateAlleleInfo` lambda of `position_snp_call_continuous`:
for each sample, if the variant fraction exceeds `min_het_vf` or output
is forced, assign the Poisson quality score to the allele and the
sample, flag the locus as SNP and attach strand bias for non-reference
alleles, and append the allele record. -/
noncomputable def generateAlleleInfo (opt : starling_base_options) (good_pi : snp_pos_info)
    (totalDepth : ℕ) (ref_base_id : ℕ) (locusInfo : GermlineContinuousSiteLocusInfo)
    (base_id : ℕ) (isForcedOutput : Bool) : GermlineContinuousSiteLocusInfo :=
  let count := locusInfo.alleleObservationCounts base_id
  let out := (List.range locusInfo.samples.length).foldl
    (fun (st : GermlineContinuousSiteLocusInfo × GermlineContinuousSiteAlleleInfo × Bool)
        sampleIndex =>
      let locus := st.1
      let allele := st.2.1
      let isOutputAllele := st.2.2
      let vf := safeFrac count totalDepth
      if vf > opt.min_het_vf ∨ isForcedOutput then
        let score := poisson_qscore count totalDepth opt.min_qscore 40
        let locus := { locus with samples := locus.samples.set sampleIndex ⟨score⟩ }
        let allele := { allele with gqx := score }
        let withSnp :=
          if ref_base_id ≠ base_id then
            let fwdAlt := (good_pi.calls.filter fun bc =>
              bc.is_fwd_strand && bc.base_id == base_id).length
            let fwdOther := (good_pi.calls.filter fun bc =>
              bc.is_fwd_strand && !(bc.base_id == base_id)).length
            let revAlt := (good_pi.calls.filter fun bc =>
              !bc.is_fwd_strand && bc.base_id == base_id).length
            let revOther := (good_pi.calls.filter fun bc =>
              !bc.is_fwd_strand && !(bc.base_id == base_id)).length
            ({ locus with is_snp := locus.is_snp || decide (vf > opt.min_het_vf) },
             { allele with strand_bias :=
                strand_bias fwdAlt revAlt fwdOther revOther opt.noise_floor })
          else (locus, allele)
        let locus := withSnp.1
        let allele := withSnp.2
        ({ locus with altAlleles := locus.altAlleles ++ [allele] }, allele, true)
      else if isOutputAllele then
        ({ locus with altAlleles := locus.altAlleles ++ [allele] }, allele, isOutputAllele)
      else (locus, allele, isOutputAllele))
    (locusInfo, ⟨totalDepth, count, base_id, 0, 0⟩, false)
  out.1

/-- `starling_continuous_variant_caller::position_snp_call_continuous`. -/
noncomputable def position_snp_call_continuous (opt : starling_base_options)
    (good_pi : snp_pos_info) (locusInfo : GermlineContinuousSiteLocusInfo) :
    GermlineContinuousSiteLocusInfo :=
  let totalDepth := (List.range N_BASE).foldl
    (fun acc base_id => acc + locusInfo.alleleObservationCounts base_id)
    locusInfo.spanning_deletions
  let ref_base_id := locusInfo.refBaseId
  let locus1 := (List.range N_BASE).foldl
    (fun locus base_id =>
      generateAlleleInfo opt good_pi totalDepth ref_base_id locus base_id locus.isForcedOutput)
    locusInfo
  let locus2 :=
    if locus1.altAlleles.isEmpty then
      -- force at least a call for the reference so that filters can be
      -- assigned to the locus
      generateAlleleInfo opt good_pi totalDepth ref_base_id locus1 ref_base_id true
    else locus1
  { locus2 with anyVariantAlleleQuality :=
      locus2.samples.foldl (fun q s => max q s.gq) 0 }

/-- Per-sample indel support counts
(`starling_indel_sample_report_info`); the `total_confident_reads()`
accessor (header not in src) is modelled from the spec as the stored
total-confident-read count. -/
structure starling_indel_sample_report_info where
  n_confident_indel_reads : ℕ
  total_confident_reads : ℕ

/-- `GermlineContinuousIndelAlleleInfo(totalReads, indelReads, …)` with
the mutable `gqx` member. -/
structure GermlineContinuousIndelAlleleInfo where
  totalReads : ℕ
  indelReads : ℕ
  gqx : ℤ

/-- Modelled from the spec: an allele record's `variant_frequency()`
(header not in src) is its variant fraction, supporting reads over
total reads. -/
def GermlineContinuousIndelAlleleInfo.variant_frequency
    (a : GermlineContinuousIndelAlleleInfo) : ℚ :=
  safeFrac a.indelReads a.totalReads

/-- `GermlineContinuousIndelLocusInfo`. -/
structure GermlineContinuousIndelLocusInfo where
  samples : List ContinuousSampleInfo
  altAlleles : List GermlineContinuousIndelAlleleInfo
  is_het : Bool
  anyVariantAlleleQuality : ℤ

/-- First block of `starling_continuous_variant_caller::add_indel_call`:
if the variant fraction exceeds `min_het_vf` or output is forced,
append an allele record and assign the Poisson quality score to the
allele and to every sample (`isForcedOutput` is
`indelData.isForcedOutput`). -/
noncomputable def add_indel_call_append (opt : starling_base_options) (isForcedOutput : Bool)
    (indelSampleReportInfo : starling_indel_sample_report_info)
    (locusInfo : GermlineContinuousIndelLocusInfo) : GermlineContinuousIndelLocusInfo :=
  let vf : ℚ := (indelSampleReportInfo.n_confident_indel_reads : ℚ) /
    (indelSampleReportInfo.total_confident_reads : ℚ)
  if vf > opt.min_het_vf ∨ isForcedOutput then
    let score := poisson_qscore indelSampleReportInfo.n_confident_indel_reads
      indelSampleReportInfo.total_confident_reads opt.min_qscore 40
    let allele0 : GermlineContinuousIndelAlleleInfo :=
      ⟨indelSampleReportInfo.total_confident_reads,
        indelSampleReportInfo.n_confident_indel_reads, 0⟩
    -- the per-sample loop assigns `allele.gqx = sampleInfo.gq = score`
    let allele := if locusInfo.samples.isEmpty then allele0 else { allele0 with gqx := score }
    { locusInfo with
        altAlleles := locusInfo.altAlleles ++ [allele]
        samples := locusInfo.samples.map fun _ => ⟨score⟩ }
  else locusInfo

/-- Second block of `add_indel_call`: once any allele record exists,
declare heterozygosity iff more than one record exists or the first
record's variant frequency is below `1 - min_het_vf`. -/
noncomputable def add_indel_call_setHet (opt : starling_base_options)
    (locusInfo : GermlineContinuousIndelLocusInfo) : GermlineContinuousIndelLocusInfo :=
  match locusInfo.altAlleles with
  | [] => locusInfo
  | front :: _ =>
    { locusInfo with is_het :=
        (decide (locusInfo.altAlleles.length > 1) ||
          decide (front.variant_frequency < 1 - opt.min_het_vf)) }

/-- `starling_continuous_variant_caller::add_indel_call`. -/
noncomputable def add_indel_call (opt : starling_base_options) (isForcedOutput : Bool)
    (indelSampleReportInfo : starling_indel_sample_report_info)
    (locusInfo : GermlineContinuousIndelLocusInfo) : GermlineContinuousIndelLocusInfo :=
  let locus2 := add_indel_call_setHet opt
    (add_indel_call_append opt isForcedOutput indelSampleReportInfo locusInfo)
  { locus2 with anyVariantAlleleQuality :=
      locus2.samples.foldl (fun q s => max q s.gq) 0 }

/-! ## Indel error-rate model (`IndelErrorModel.cpp`)

`IndelErrorRateSet` and `IndelErrorRateType::getRateType` live in
headers that are not part of the provided sources; the finalized rate
table is modelled from the spec as a total lookup
`(patternSize, repeatCount, direction) → rate`, and an indel key is
represented by its `getRateType` classification (pure insertion, pure
deletion, or complex). -/

/-- `IndelErrorRateType::index_t` restricted to the values produced by
`getRateType`. -/
inductive IndelErrorRateType where
  | INSERT
  | DELETE
  | OTHER
deriving DecidableEq, Repr

/-- Modelled from the spec: a finalized rate table — "given a context
key, return an error rate" for each
`(repeatUnitLength, repeatCount, indelDirection)` key. -/
structure IndelErrorRateSet where
  getRate : ℕ → ℕ → IndelErrorRateType → ℝ

/-- Repeat-context descriptors of an indel allele
(`AlleleReportInfo`). -/
structure AlleleReportInfo where
  repeatUnitLength : ℕ
  refRepeatCount : ℕ
  indelRepeatCount : ℕ

/-- `IndelErrorModel::getIndelErrorRate`, returning the pair
`(refToIndelErrorProb, indelToRefErrorProb)`; `indelType` is
`getRateType(indelKey)`. -/
def getIndelErrorRate (errorRates : IndelErrorRateSet) (indelType : IndelErrorRateType)
    (indelReportInfo : AlleleReportInfo) : ℝ × ℝ :=
  let isSimpleIndel := indelType = IndelErrorRateType.INSERT ∨
    indelType = IndelErrorRateType.DELETE
  if ¬ isSimpleIndel then
    -- complex indels use baseline indel error rates
    let baselineInsertionErrorRate := errorRates.getRate 1 1 IndelErrorRateType.INSERT
    let baselineDeletionErrorRate := errorRates.getRate 1 1 IndelErrorRateType.DELETE
    (max baselineInsertionErrorRate baselineDeletionErrorRate,
     max baselineInsertionErrorRate baselineDeletionErrorRate)
  else
    let repeatingPatternSize := max indelReportInfo.repeatUnitLength 1
    let refPatternRepeatCount := max indelReportInfo.refRepeatCount 1
    let indelPatternRepeatCount := max indelReportInfo.indelRepeatCount 1
    let reverseIndelType :=
      if indelType = IndelErrorRateType.DELETE then IndelErrorRateType.INSERT
      else IndelErrorRateType.DELETE
    (errorRates.getRate repeatingPatternSize refPatternRepeatCount indelType,
     errorRates.getRate repeatingPatternSize indelPatternRepeatCount reverseIndelType)

/-- Log-scale parameters of one anchor of the adaptive model
(`AdaptiveIndelErrorModelLogParams`). -/
structure AdaptiveIndelErrorModelLogParams where
  logErrorRate : ℝ
  logNoisyLocusRate : ℝ

/-- `AdaptiveIndelErrorModel`: a two-anchor log-linear ramp per
repeating pattern size. -/
structure AdaptiveIndelErrorModel where
  repeatPatternSize : ℕ
  highRepeatCount : ℕ
  lowLogParams : AdaptiveIndelErrorModelLogParams
  highLogParams : AdaptiveIndelErrorModelLogParams

/-- `AdaptiveIndelErrorModel::lowRepeatCount = 2`: the fixed low-anchor
repeat count. -/
def AdaptiveIndelErrorModel.lowRepeatCount : ℕ := 2

/-- `AdaptiveIndelErrorModel::linearFit`; the `assert(x1!=x2)` is
modelled as `none` on degenerate anchors. -/
noncomputable def linearFit (x x1 y1 x2 y2 : ℝ) : Option ℝ :=
  if x1 = x2 then none
  else some (((y2 - y1) * x + (x2 * y1 - x1 * y2)) / (x2 - x1))

/-- `AdaptiveIndelErrorModel::errorRate`; the `assert(repeatCount > 1)`
is modelled as `none`. -/
noncomputable def AdaptiveIndelErrorModel.errorRate (m : AdaptiveIndelErrorModel)
    (repeatCount : ℕ) : Option ℝ :=
  if repeatCount ≤ 1 then none
  else if m.highRepeatCount ≤ repeatCount then some (Real.exp m.highLogParams.logErrorRate)
  else (linearFit repeatCount AdaptiveIndelErrorModel.lowRepeatCount
    m.lowLogParams.logErrorRate m.highRepeatCount m.highLogParams.logErrorRate).map Real.exp

/-- `AdaptiveIndelErrorModel::noisyLocusRate`: same shape as
`errorRate` over the `logNoisyLocusRate` parameters. -/
noncomputable def AdaptiveIndelErrorModel.noisyLocusRate (m : AdaptiveIndelErrorModel)
    (repeatCount : ℕ) : Option ℝ :=
  if repeatCount ≤ 1 then none
  else if m.highRepeatCount ≤ repeatCount then some (Real.exp m.highLogParams.logNoisyLocusRate)
  else (linearFit repeatCount AdaptiveIndelErrorModel.lowRepeatCount
    m.lowLogParams.logNoisyLocusRate m.highRepeatCount m.highLogParams.logNoisyLocusRate).map
    Real.exp

/-! ## Claim theorems -/

/-- C1: For all aggregator states A, B, C of the error-context
aggregator, `merge` is associative and commutative:
`merge(merge(A,B),C) = merge(A,merge(B,C))` and
`merge(A,B) = merge(B,A)`, where merging unions by context key, then
adds observation-pattern occurrence counts, reference quality-level
counts, and the four skip-reason counters; equality compares all of
these, and a key absent from one side behaves as a zero count. -/
theorem basecallErrorCounts_merge_assoc_comm (A B C : BasecallErrorCounts) :
    (A.merge B).merge C = A.merge (B.merge C) ∧ A.merge B = B.merge A :=
  ⟨errorCounts_merge_assoc A B C, errorCounts_merge_comm A B⟩

/-- C6: Canonicalization of an observation pattern (`compressCounts` on
the two-strand pattern) is idempotent, strand-swap invariant (swapping
strand0 and strand1 of the raw input before canonicalizing yields the
same canonical pattern), and every canonical pattern satisfies
strand0 ≥ strand1 (strand0 < strand1 is false) under the strand-count
total ordering. -/
theorem compressCounts_idem_swap_canonical (p : BasecallErrorContextObservation) :
    p.compressCounts.compressCounts = p.compressCounts ∧
    BasecallErrorContextObservation.compressCounts ⟨p.strand1, p.strand0⟩ =
      p.compressCounts ∧
    StrandBasecallCounts.ltB p.compressCounts.strand0 p.compressCounts.strand1 = false :=
  ⟨BasecallErrorContextObservation.compressCounts_pattern_idem p,
   BasecallErrorContextObservation.compressCounts_swap p,
   BasecallErrorContextObservation.compressCounts_canonical p⟩

/-- C7: For every committed site observation in which neither strand
carries alt-allele evidence, the canonical pattern produced by
`addObservation` has the two strands' reference counts summed into
strand0 (then quantized to the 4-bit budget) and strand1's reference
count equal to zero; when either strand has alt evidence, both
strands' reference counts are kept separately (each strand quantized,
in canonical order). -/
theorem commitSiteObservation_pattern_spec (obs : BasecallErrorContextInputObservation) :
    (obs.alt0 = [] ∧ obs.alt1 = [] →
      obs.compressedPattern =
        ⟨⟨compressInt (sumValues obs.ref0 + sumValues obs.ref1) 4, []⟩, ⟨0, []⟩⟩) ∧
    (¬ (obs.alt0 = [] ∧ obs.alt1 = []) →
      obs.compressedPattern =
        ⟨StrandBasecallCounts.compressCounts ⟨sumValues obs.ref0, obs.alt0⟩,
         StrandBasecallCounts.compressCounts ⟨sumValues obs.ref1, obs.alt1⟩⟩ ∨
      obs.compressedPattern =
        ⟨StrandBasecallCounts.compressCounts ⟨sumValues obs.ref1, obs.alt1⟩,
         StrandBasecallCounts.compressCounts ⟨sumValues obs.ref0, obs.alt0⟩⟩) := by
  constructor
  · rintro ⟨h0, h1⟩
    unfold BasecallErrorContextInputObservation.compressedPattern
    rw [BasecallErrorContextObservation.compressCounts_of_no_alt
      (p := ⟨⟨sumValues obs.ref0, obs.alt0⟩, ⟨sumValues obs.ref1, obs.alt1⟩⟩) h0 h1]
  · intro h
    unfold BasecallErrorContextInputObservation.compressedPattern
    rw [BasecallErrorContextObservation.compressCounts_of_alt
      (p := ⟨⟨sumValues obs.ref0, obs.alt0⟩, ⟨sumValues obs.ref1, obs.alt1⟩⟩) h]
    unfold orderStrands
    by_cases hlt : StrandBasecallCounts.ltB
        (StrandBasecallCounts.compressCounts ⟨sumValues obs.ref0, obs.alt0⟩)
        (StrandBasecallCounts.compressCounts ⟨sumValues obs.ref1, obs.alt1⟩)
    · right
      rw [if_pos hlt]
    · left
      rw [if_neg hlt]

/-- Witness for C7 at a concrete input with alt evidence. -/
theorem commitSiteObservation_pattern_spec_witness :
    (¬ (([(30, 1)] : List (ℕ × ℕ)) = [] ∧ ([] : List (ℕ × ℕ)) = [])) ∧
    ((⟨[(30, 5)], [(30, 2)], [(30, 1)], []⟩ :
        BasecallErrorContextInputObservation).compressedPattern =
      ⟨StrandBasecallCounts.compressCounts ⟨sumValues [(30, 5)], [(30, 1)]⟩,
       StrandBasecallCounts.compressCounts ⟨sumValues [(30, 2)], []⟩⟩ ∨
    (⟨[(30, 5)], [(30, 2)], [(30, 1)], []⟩ :
        BasecallErrorContextInputObservation).compressedPattern =
      ⟨StrandBasecallCounts.compressCounts ⟨sumValues [(30, 2)], []⟩,
       StrandBasecallCounts.compressCounts ⟨sumValues [(30, 5)], [(30, 1)]⟩⟩) :=
  ⟨by decide,
   (commitSiteObservation_pattern_spec ⟨[(30, 5)], [(30, 2)], [(30, 1)], []⟩).2 (by decide)⟩

/-- C10: The export step builds the exported quality-level list (and
hence its level-to-index map) from reference-allele observations only,
and — because the alt-count conversion performs an unguarded
`qualIndex` lookup and dereferences its result — the export is
well-defined exactly when every quality level appearing in any
pattern's alt counts also appears among the context's reference-allele
quality counts (alt-only levels are otherwise absent from the exported
level list). -/
theorem getExportData_spec (d : BasecallErrorContextObservationDataEntries) :
    (∀ e, d.getExportData = some e →
      e.altAlleleBasecallErrorPhredProbLevels =
        d.refAlleleBasecallErrorPhredProbs.map Prod.fst) ∧
    (d.getExportData.isSome ↔
      ∀ kv ∈ d.data,
        (∀ qc ∈ kv.1.strand0.altAlleleCount,
          qc.1 ∈ d.refAlleleBasecallErrorPhredProbs.map Prod.fst) ∧
        (∀ qc ∈ kv.1.strand1.altAlleleCount,
          qc.1 ∈ d.refAlleleBasecallErrorPhredProbs.map Prod.fst)) := by
  have hrepr : d.getExportData =
      (exportObservations (d.refAlleleBasecallErrorPhredProbs.map Prod.fst) d.data).map
        fun obs =>
          ⟨d.refAlleleBasecallErrorPhredProbs.map Prod.fst,
           (d.refAlleleBasecallErrorPhredProbs.map Prod.fst).map fun qual =>
             ((d.refAlleleBasecallErrorPhredProbs.lookup qual).getD 0),
           obs⟩ := rfl
  have hiff := exportObservations_isSome_iff
    (d.refAlleleBasecallErrorPhredProbs.map Prod.fst) d.data
  constructor
  · intro e he
    rw [hrepr] at he
    cases hx : exportObservations (d.refAlleleBasecallErrorPhredProbs.map Prod.fst) d.data with
    | none =>
      rw [hx] at he
      simp at he
    | some obs =>
      rw [hx] at he
      simp only [Option.map_some', Option.some.injEq] at he
      rw [← he]
  · rw [hrepr]
    cases hx : exportObservations (d.refAlleleBasecallErrorPhredProbs.map Prod.fst) d.data with
    | none =>
      rw [hx] at hiff
      simp only [Option.isSome_none, Bool.false_eq_true, false_iff] at hiff
      simpa using hiff
    | some obs =>
      rw [hx] at hiff
      simp only [Option.isSome_some, true_iff] at hiff
      simpa using hiff

/-- Witness for C10 at a concrete aggregation state whose single
pattern only uses the quality level present among the reference
observations. -/
theorem getExportData_spec_witness :
    ((⟨[(⟨⟨5, [(30, 1)]⟩, ⟨4, []⟩⟩, 2)], [(30, 9)]⟩ :
        BasecallErrorContextObservationDataEntries).getExportData =
      some ⟨[30], [9], [(⟨⟨5, [1]⟩, ⟨4, [0]⟩⟩, 2)]⟩) ∧
    (⟨[30], [9], [(⟨⟨5, [1]⟩, ⟨4, [0]⟩⟩, 2)]⟩ :
        BasecallErrorContextObservationExportData).altAlleleBasecallErrorPhredProbLevels =
      ([(30, 9)] : List (ℕ × ℕ)).map Prod.fst :=
  ⟨by decide,
   (getExportData_spec ⟨[(⟨⟨5, [(30, 1)]⟩, ⟨4, []⟩⟩, 2)], [(30, 9)]⟩).1
     ⟨[30], [9], [(⟨⟨5, [1]⟩, ⟨4, [0]⟩⟩, 2)]⟩ (by decide)⟩

/-- C3: `strand_bias` returns `max(log L_fwd, log L_rev) − log L_both`
where the expected frequency is the pooled alt fraction
`(fwdAlt+revAlt)/(fwdAlt+revAlt+fwdOther+revOther)`, `L_fwd` is the
binomial likelihood of `fwdAlt` successes in `fwdAlt+fwdOther` trials
at that frequency (likelihood 0 when the observed count is 0), `L_rev`
analogously, `L_both` the likelihood of `fwdAlt+revAlt` successes in
all trials; the noise parameter is ignored. -/
theorem strand_bias_spec (fwdAlt revAlt fwdOther revOther : ℕ) (noise noise' : ℝ) :
    strand_bias fwdAlt revAlt fwdOther revOther noise =
      max (Real.log (Likelihood (fwdAlt + fwdOther) fwdAlt
          (((fwdAlt : ℝ) + revAlt) / ((fwdAlt : ℝ) + revAlt + fwdOther + revOther))))
        (Real.log (Likelihood (revAlt + revOther) revAlt
          (((fwdAlt : ℝ) + revAlt) / ((fwdAlt : ℝ) + revAlt + fwdOther + revOther)))) -
      Real.log (Likelihood (fwdAlt + fwdOther + revAlt + revOther) (fwdAlt + revAlt)
        (((fwdAlt : ℝ) + revAlt) / ((fwdAlt : ℝ) + revAlt + fwdOther + revOther))) ∧
    (∀ (coverage : ℕ) (f : ℝ), Likelihood coverage 0 f = 0) ∧
    strand_bias fwdAlt revAlt fwdOther revOther noise =
      strand_bias fwdAlt revAlt fwdOther revOther noise' := by
  refine ⟨?_, fun coverage f => by simp [Likelihood], rfl⟩
  unfold strand_bias
  have hn : ((fwdAlt + revAlt : ℕ) : ℝ) = (fwdAlt : ℝ) + revAlt := by push_cast; ring
  have hd : ((fwdOther : ℝ)) + (revOther : ℕ) + (fwdAlt : ℕ) + (revAlt : ℕ) =
      (fwdAlt : ℝ) + revAlt + fwdOther + revOther := by push_cast; ring
  rw [hn, hd]

/-- C4: For every finalized rate model and every indel key: a complex
indel (neither pure insertion nor pure deletion) gets both
`refToIndelErrorProb` and `indelToRefErrorProb` set to the larger of
the table's insertion and deletion rates at pattern size 1, repeat
count 1; a simple indel, with `repeatUnitLength`, `refRepeatCount` and
`indelRepeatCount` each floored to at least 1, gets
`refToIndelErrorProb` from the table at the reference repeat count and
its own direction and `indelToRefErrorProb` from the table at the
indel repeat count and the opposite direction. -/
theorem getIndelErrorRate_spec (errorRates : IndelErrorRateSet)
    (indelType : IndelErrorRateType) (info : AlleleReportInfo) :
    getIndelErrorRate errorRates indelType info =
      match indelType with
      | IndelErrorRateType.OTHER =>
        (max (errorRates.getRate 1 1 IndelErrorRateType.INSERT)
            (errorRates.getRate 1 1 IndelErrorRateType.DELETE),
         max (errorRates.getRate 1 1 IndelErrorRateType.INSERT)
            (errorRates.getRate 1 1 IndelErrorRateType.DELETE))
      | IndelErrorRateType.INSERT =>
        (errorRates.getRate (max info.repeatUnitLength 1) (max info.refRepeatCount 1)
            IndelErrorRateType.INSERT,
         errorRates.getRate (max info.repeatUnitLength 1) (max info.indelRepeatCount 1)
            IndelErrorRateType.DELETE)
      | IndelErrorRateType.DELETE =>
        (errorRates.getRate (max info.repeatUnitLength 1) (max info.refRepeatCount 1)
            IndelErrorRateType.DELETE,
         errorRates.getRate (max info.repeatUnitLength 1) (max info.indelRepeatCount 1)
            IndelErrorRateType.INSERT) := by
  cases indelType <;> simp [getIndelErrorRate]

/-- C5: For every `AdaptiveIndelErrorModel` with distinct anchor
x-coordinates and every `repeatCount ≥ 2`: `errorRate(repeatCount)` is
`exp(highLogErrorRate)` whenever `repeatCount ≥ highRepeatCount`, and
otherwise `exp` of the straight-line interpolation in
(repeatCount, log-rate) space through `(2, lowLogErrorRate)` and
`(highRepeatCount, highLogErrorRate)`; equal anchor x-coordinates halt
with a fatal assertion (modelled as `none` from `linearFit`), and
`noisyLocusRate` has the same shape over its log parameters. -/
theorem adaptiveIndelErrorModel_errorRate_spec (m : AdaptiveIndelErrorModel)
    (repeatCount : ℕ) (hrc : 2 ≤ repeatCount)
    (hanchor : m.highRepeatCount ≠ AdaptiveIndelErrorModel.lowRepeatCount) :
    (m.errorRate repeatCount =
      some (if m.highRepeatCount ≤ repeatCount then Real.exp m.highLogParams.logErrorRate
        else Real.exp (m.lowLogParams.logErrorRate + ((repeatCount : ℝ) - 2) *
          (m.highLogParams.logErrorRate - m.lowLogParams.logErrorRate) /
            ((m.highRepeatCount : ℝ) - 2)))) ∧
    (m.noisyLocusRate repeatCount =
      some (if m.highRepeatCount ≤ repeatCount then Real.exp m.highLogParams.logNoisyLocusRate
        else Real.exp (m.lowLogParams.logNoisyLocusRate + ((repeatCount : ℝ) - 2) *
          (m.highLogParams.logNoisyLocusRate - m.lowLogParams.logNoisyLocusRate) /
            ((m.highRepeatCount : ℝ) - 2)))) ∧
    (∀ (x y1 y2 c : ℝ), linearFit x c y1 c y2 = none) := by
  have hnot1 : ¬ repeatCount ≤ 1 := by omega
  refine ⟨?_, ?_, fun x y1 y2 c => by simp [linearFit]⟩
  · unfold AdaptiveIndelErrorModel.errorRate
    rw [if_neg hnot1]
    by_cases hhigh : m.highRepeatCount ≤ repeatCount
    · rw [if_pos hhigh, if_pos hhigh]
    · rw [if_neg hhigh, if_neg hhigh]
      have hgt : 2 < m.highRepeatCount := by omega
      have hne : (AdaptiveIndelErrorModel.lowRepeatCount : ℝ) ≠ (m.highRepeatCount : ℝ) := by
        have : ((2 : ℕ) : ℝ) < (m.highRepeatCount : ℝ) := by exact_mod_cast hgt
        unfold AdaptiveIndelErrorModel.lowRepeatCount
        push_cast
        push_cast at this
        linarith
      unfold linearFit
      rw [if_neg hne]
      simp only [Option.map_some', Option.some.injEq]
      congr 1
      have h2 : ((AdaptiveIndelErrorModel.lowRepeatCount : ℕ) : ℝ) = 2 := by
        unfold AdaptiveIndelErrorModel.lowRepeatCount
        norm_num
      rw [h2]
      have hne2 : (m.highRepeatCount : ℝ) - 2 ≠ 0 := by
        have : ((2 : ℕ) : ℝ) < (m.highRepeatCount : ℝ) := by exact_mod_cast hgt
        push_cast at this
        linarith
      field_simp
      ring
  · unfold AdaptiveIndelErrorModel.noisyLocusRate
    rw [if_neg hnot1]
    by_cases hhigh : m.highRepeatCount ≤ repeatCount
    · rw [if_pos hhigh, if_pos hhigh]
    · rw [if_neg hhigh, if_neg hhigh]
      have hgt : 2 < m.highRepeatCount := by omega
      have hne : (AdaptiveIndelErrorModel.lowRepeatCount : ℝ) ≠ (m.highRepeatCount : ℝ) := by
        have : ((2 : ℕ) : ℝ) < (m.highRepeatCount : ℝ) := by exact_mod_cast hgt
        unfold AdaptiveIndelErrorModel.lowRepeatCount
        push_cast
        push_cast at this
        linarith
      unfold linearFit
      rw [if_neg hne]
      simp only [Option.map_some', Option.some.injEq]
      congr 1
      have h2 : ((AdaptiveIndelErrorModel.lowRepeatCount : ℕ) : ℝ) = 2 := by
        unfold AdaptiveIndelErrorModel.lowRepeatCount
        norm_num
      rw [h2]
      have hne2 : (m.highRepeatCount : ℝ) - 2 ≠ 0 := by
        have : ((2 : ℕ) : ℝ) < (m.highRepeatCount : ℝ) := by exact_mod_cast hgt
        push_cast at this
        linarith
      field_simp
      ring

/-- Witness for C5 at a concrete adaptive model (pattern size 1, high
anchor 16) and repeat count 5 in the interpolation region. -/
theorem adaptiveIndelErrorModel_errorRate_spec_witness :
    2 ≤ 5 ∧
    (⟨1, 16, ⟨-2, -5⟩, ⟨-1, -4⟩⟩ : AdaptiveIndelErrorModel).highRepeatCount ≠
      AdaptiveIndelErrorModel.lowRepeatCount ∧
    (⟨1, 16, ⟨-2, -5⟩, ⟨-1, -4⟩⟩ : AdaptiveIndelErrorModel).errorRate 5 =
      some (if (⟨1, 16, ⟨-2, -5⟩, ⟨-1, -4⟩⟩ : AdaptiveIndelErrorModel).highRepeatCount ≤ 5 then
        Real.exp (⟨1, 16, ⟨-2, -5⟩, ⟨-1, -4⟩⟩ :
          AdaptiveIndelErrorModel).highLogParams.logErrorRate
      else Real.exp ((⟨1, 16, ⟨-2, -5⟩, ⟨-1, -4⟩⟩ :
          AdaptiveIndelErrorModel).lowLogParams.logErrorRate + ((5 : ℕ) - 2 : ℝ) *
        ((⟨1, 16, ⟨-2, -5⟩, ⟨-1, -4⟩⟩ :
            AdaptiveIndelErrorModel).highLogParams.logErrorRate -
          (⟨1, 16, ⟨-2, -5⟩, ⟨-1, -4⟩⟩ :
            AdaptiveIndelErrorModel).lowLogParams.logErrorRate) /
        (((⟨1, 16, ⟨-2, -5⟩, ⟨-1, -4⟩⟩ :
            AdaptiveIndelErrorModel).highRepeatCount : ℝ) - 2))) := by
  refine ⟨by norm_num, by decide, ?_⟩
  exact (adaptiveIndelErrorModel_errorRate_spec ⟨1, 16, ⟨-2, -5⟩, ⟨-1, -4⟩⟩ 5 (by norm_num)
    (by decide)).1

/-- The error probability encoded by phred quality 30 is 1/1000. -/
theorem qphred_to_error_prob_30 : qphred_to_error_prob 30 = 1 / 1000 := by
  unfold qphred_to_error_prob
  rw [show (-((30 : ℕ) : ℝ) / 10) = ((-3 : ℤ) : ℝ) by push_cast; norm_num]
  rw [Real.rpow_intCast]
  norm_num

/-- Positivity and smallness of the Poisson-tail p-value at
`(30, 3/100)`. -/
theorem gamma_p_30_bounds :
    0 < gamma_p 30 (3 / 100) ∧ gamma_p 30 (3 / 100) ≤ 1 / 10000 := by
  have hx0 : (0 : ℝ) ≤ 3 / 100 := by norm_num
  set S : ℝ := ∑ k ∈ Finset.range 30, (3 / 100 : ℝ) ^ k / (Nat.factorial k) with hS
  have hgp : gamma_p 30 (3 / 100) = 1 - Real.exp (-(3 / 100)) * S := rfl
  have hfact : 1 - Real.exp (-(3 / 100)) * S =
      Real.exp (-(3 / 100)) * (Real.exp (3 / 100) - S) := by
    have h1 : Real.exp (-(3 / 100)) * Real.exp (3 / 100) = 1 := by
      rw [← Real.exp_add]
      norm_num
    rw [mul_sub, h1]
  have hS_le : S + (3 / 100 : ℝ) ^ 30 / (Nat.factorial 30) ≤ Real.exp (3 / 100) := by
    have h := Real.sum_le_exp_of_nonneg hx0 31
    rwa [Finset.sum_range_succ] at h
  have hpos : 0 < Real.exp (3 / 100) - S := by
    have hx30 : (0 : ℝ) < (3 / 100 : ℝ) ^ 30 / (Nat.factorial 30) := by positivity
    linarith
  have hub : Real.exp (3 / 100) - S ≤ (3 / 100 : ℝ) ^ 30 * 31 / (Nat.factorial 30 * 30) := by
    have h := Real.exp_bound' hx0 (by norm_num) (n := 30) (by norm_num)
    rw [← hS] at h
    have h31 : ((30 : ℕ) + 1 : ℝ) = 31 := by norm_num
    calc Real.exp (3 / 100) - S ≤
        (3 / 100 : ℝ) ^ 30 * ((30 : ℕ) + 1) / (Nat.factorial 30 * 30) := by linarith
      _ = (3 / 100 : ℝ) ^ 30 * 31 / (Nat.factorial 30 * 30) := by rw [h31]
  have hfac1 : (1 : ℝ) ≤ (Nat.factorial 30 : ℝ) * 30 := by
    have h1 : (1 : ℕ) ≤ Nat.factorial 30 * 30 :=
      Nat.one_le_iff_ne_zero.mpr (by positivity)
    exact_mod_cast h1
  have hsmall : (3 / 100 : ℝ) ^ 30 * 31 / (Nat.factorial 30 * 30) ≤ 1 / 10000 := by
    have h1 : (3 / 100 : ℝ) ^ 30 * 31 / (Nat.factorial 30 * 30) ≤ (3 / 100 : ℝ) ^ 30 * 31 := by
      apply div_le_self (by positivity) hfac1
    have h2 : (3 / 100 : ℝ) ^ 30 ≤ (1 / 10 : ℝ) ^ 30 := by
      apply pow_le_pow_left hx0 (by norm_num)
    have h3 : (1 / 10 : ℝ) ^ 30 * 31 ≤ 1 / 10000 := by norm_num
    nlinarith
  constructor
  · rw [hgp, hfact]
    exact mul_pos (Real.exp_pos _) hpos
  · rw [hgp, hfact]
    have hexp1 : Real.exp (-(3 / 100)) ≤ 1 := Real.exp_le_one_iff.mpr (by norm_num)
    calc Real.exp (-(3 / 100)) * (Real.exp (3 / 100) - S) ≤
        1 * (Real.exp (3 / 100) - S) :=
          mul_le_mul_of_nonneg_right hexp1 (le_of_lt hpos)
      _ = Real.exp (3 / 100) - S := one_mul _
      _ ≤ (3 / 100 : ℝ) ^ 30 * 31 / (Nat.factorial 30 * 30) := hub
      _ ≤ 1 / 10000 := hsmall

/-- A p-value in `(0, 10⁻⁴]` maps to a phred score of at least 40. -/
theorem error_prob_to_qphred_ge_40 {p : ℝ} (hp : 0 < p) (hple : p ≤ 1 / 10000) :
    40 ≤ error_prob_to_qphred p := by
  have hlogb : Real.logb 10 p ≤ -4 := by
    rw [Real.logb_le_iff_le_rpow (by norm_num) hp]
    rw [show ((-4 : ℝ)) = ((-4 : ℤ) : ℝ) by norm_num, Real.rpow_intCast]
    norm_num
    linarith
  unfold error_prob_to_qphred
  rw [round_eq]
  apply Int.le_floor.mpr
  push_cast
  linarith

/-- C2: `poisson_qscore(n, c, q, m)` computes the p-value as the
regularized lower incomplete gamma function at
`(n, c × errorProb(q))` when `n > 0` and as exactly 1.0 when `n = 0`;
it returns `m` whenever the computed p-value is ≤ 0, otherwise
`min(m, phred(p))`; for `n = 0` the result reflects p-value 1.0 (the
minimum phred score 0); the result never exceeds `m`; and
`poisson_qscore(30, 30, 30, 40) = 40`. -/
theorem poisson_qscore_spec (observedCount coverage quality : ℕ) (maxQScore : ℤ) :
    (AssignPValue observedCount coverage quality =
      if observedCount = 0 then 1
      else gamma_p observedCount ((coverage : ℝ) * qphred_to_error_prob quality)) ∧
    (AssignPValue observedCount coverage quality ≤ 0 →
      poisson_qscore observedCount coverage quality maxQScore = maxQScore) ∧
    (0 < AssignPValue observedCount coverage quality →
      poisson_qscore observedCount coverage quality maxQScore =
        min maxQScore (error_prob_to_qphred (AssignPValue observedCount coverage quality))) ∧
    (poisson_qscore 0 coverage quality maxQScore = min maxQScore 0) ∧
    (poisson_qscore observedCount coverage quality maxQScore ≤ maxQScore) ∧
    (poisson_qscore 30 30 30 40 = 40) := by
  have hphred1 : error_prob_to_qphred 1 = 0 := by
    unfold error_prob_to_qphred
    rw [Real.logb_one]
    norm_num
  refine ⟨rfl, ?_, ?_, ?_, ?_, ?_⟩
  · intro h
    show (if AssignPValue observedCount coverage quality ≤ 0 then maxQScore
      else min maxQScore
        (error_prob_to_qphred (AssignPValue observedCount coverage quality))) = maxQScore
    rw [if_pos h]
  · intro h
    show (if AssignPValue observedCount coverage quality ≤ 0 then maxQScore
      else min maxQScore
        (error_prob_to_qphred (AssignPValue observedCount coverage quality))) =
      min maxQScore (error_prob_to_qphred (AssignPValue observedCount coverage quality))
    rw [if_neg (not_le.mpr h)]
  · have h1 : AssignPValue 0 coverage quality = 1 := by simp [AssignPValue]
    show (if AssignPValue 0 coverage quality ≤ 0 then maxQScore
      else min maxQScore
        (error_prob_to_qphred (AssignPValue 0 coverage quality))) = min maxQScore 0
    rw [h1, if_neg (by norm_num), hphred1]
  · show (if AssignPValue observedCount coverage quality ≤ 0 then maxQScore
      else min maxQScore
        (error_prob_to_qphred (AssignPValue observedCount coverage quality))) ≤ maxQScore
    by_cases h : AssignPValue observedCount coverage quality ≤ 0
    · rw [if_pos h]
    · rw [if_neg h]
      exact min_le_left _ _
  · have h1 : AssignPValue 30 30 30 = gamma_p 30 (3 / 100) := by
      unfold AssignPValue
      rw [if_neg (by norm_num), qphred_to_error_prob_30]
      norm_num
    obtain ⟨hpos, hle⟩ := gamma_p_30_bounds
    have h40 := error_prob_to_qphred_ge_40 hpos hle
    show (if AssignPValue 30 30 30 ≤ 0 then (40 : ℤ)
      else min 40 (error_prob_to_qphred (AssignPValue 30 30 30))) = 40
    rw [h1, if_neg (not_le.mpr hpos)]
    exact min_eq_left h40

/-- Witness for C2: the zero-p-value branch at `(1, 0, 30, 40)` (the
p-value is exactly 0 there) and the positive branch at
`(0, 30, 30, 40)` (the p-value is exactly 1 there). -/
theorem poisson_qscore_spec_witness :
    (AssignPValue 1 0 30 ≤ 0 ∧ poisson_qscore 1 0 30 40 = 40) ∧
    (0 < AssignPValue 0 30 30 ∧
      poisson_qscore 0 30 30 40 =
        min 40 (error_prob_to_qphred (AssignPValue 0 30 30))) := by
  have hb : AssignPValue 1 0 30 ≤ 0 := by
    have : AssignPValue 1 0 30 = 0 := by
      unfold AssignPValue gamma_p
      rw [if_neg (by norm_num)]
      simp [Finset.sum_range_one]
    rw [this]
  have hc : (0 : ℝ) < AssignPValue 0 30 30 := by
    simp [AssignPValue]
  exact ⟨⟨hb, (poisson_qscore_spec 1 0 30 40).2.1 hb⟩,
    ⟨hc, (poisson_qscore_spec 0 30 30 40).2.2.1 hc⟩⟩

theorem add_indel_call_setHet_altAlleles (opt : starling_base_options)
    (locusInfo : GermlineContinuousIndelLocusInfo) :
    (add_indel_call_setHet opt locusInfo).altAlleles = locusInfo.altAlleles := by
  unfold add_indel_call_setHet
  cases h : locusInfo.altAlleles with
  | nil => simpa using h
  | cons front rest => simp

theorem add_indel_call_altAlleles (opt : starling_base_options) (isForcedOutput : Bool)
    (isri : starling_indel_sample_report_info) (locusInfo : GermlineContinuousIndelLocusInfo) :
    (add_indel_call opt isForcedOutput isri locusInfo).altAlleles =
      (add_indel_call_append opt isForcedOutput isri locusInfo).altAlleles := by
  show (add_indel_call_setHet opt
    (add_indel_call_append opt isForcedOutput isri locusInfo)).altAlleles = _
  exact add_indel_call_setHet_altAlleles _ _

theorem add_indel_call_is_het (opt : starling_base_options) (isForcedOutput : Bool)
    (isri : starling_indel_sample_report_info) (locusInfo : GermlineContinuousIndelLocusInfo) :
    (add_indel_call opt isForcedOutput isri locusInfo).is_het =
      (add_indel_call_setHet opt
        (add_indel_call_append opt isForcedOutput isri locusInfo)).is_het := rfl

theorem add_indel_call_setHet_is_het_iff (opt : starling_base_options)
    (locusInfo : GermlineContinuousIndelLocusInfo)
    (front : GermlineContinuousIndelAlleleInfo)
    (rest : List GermlineContinuousIndelAlleleInfo)
    (h : locusInfo.altAlleles = front :: rest) :
    ((add_indel_call_setHet opt locusInfo).is_het = true ↔
      locusInfo.altAlleles.length > 1 ∨
        front.variant_frequency < 1 - opt.min_het_vf) := by
  unfold add_indel_call_setHet
  rw [h]
  simp

/-- C9 counterexample: with reporting threshold 0.8, a forced sole
indel allele at variant frequency 0.5 is **not** flagged heterozygous
(`0.5 < 1 − 0.8` is false), contradicting the claim's example that a
sole allele with variant frequency 0.5 is heterozygous at threshold
0.8. -/
theorem add_indel_call_het_counterexample :
    (add_indel_call ⟨4/5, 30, 0⟩ true ⟨50, 100⟩ ⟨[⟨0⟩], [], false, 0⟩).is_het = false := by
  have happ : add_indel_call_append ⟨4/5, 30, 0⟩ true ⟨50, 100⟩ ⟨[⟨0⟩], [], false, 0⟩ =
      ⟨[⟨poisson_qscore 50 100 30 40⟩], [⟨100, 50, poisson_qscore 50 100 30 40⟩],
        false, 0⟩ := by
    unfold add_indel_call_append
    rw [if_pos (Or.inr rfl)]
    simp
  rw [add_indel_call_is_het, happ]
  unfold add_indel_call_setHet
  norm_num [GermlineContinuousIndelAlleleInfo.variant_frequency, safeFrac]

/-- C9 (amended): After at least one allele record exists,
heterozygosity is declared iff more than one allele record exists or
the first allele's variant frequency is below `1 − threshold`.
Concretely, with reporting threshold 0.8 a single qualifying alt
allele with variant frequency 0.97 is not heterozygous, and a sole
(forced) allele with variant frequency 0.5 is likewise not
heterozygous (0.5 is not below 1 − 0.8 = 0.2); a sole allele with
variant frequency 0.5 is heterozygous at reporting threshold 0.2. -/
theorem add_indel_call_het_spec :
    (∀ (opt : starling_base_options) (forced : Bool)
        (isri : starling_indel_sample_report_info)
        (locus : GermlineContinuousIndelLocusInfo)
        (front : GermlineContinuousIndelAlleleInfo)
        (rest : List GermlineContinuousIndelAlleleInfo),
      (add_indel_call opt forced isri locus).altAlleles = front :: rest →
      ((add_indel_call opt forced isri locus).is_het = true ↔
        (add_indel_call opt forced isri locus).altAlleles.length > 1 ∨
          front.variant_frequency < 1 - opt.min_het_vf)) ∧
    (add_indel_call ⟨4/5, 30, 0⟩ false ⟨97, 100⟩ ⟨[⟨0⟩], [], false, 0⟩).is_het = false ∧
    (add_indel_call ⟨4/5, 30, 0⟩ true ⟨50, 100⟩ ⟨[⟨0⟩], [], false, 0⟩).is_het = false ∧
    (add_indel_call ⟨1/5, 30, 0⟩ false ⟨50, 100⟩ ⟨[⟨0⟩], [], false, 0⟩).is_het = true := by
  refine ⟨?_, ?_, ?_, ?_⟩
  · intro opt forced isri locus front rest h
    rw [add_indel_call_altAlleles] at h
    rw [add_indel_call_is_het, add_indel_call_altAlleles]
    exact add_indel_call_setHet_is_het_iff opt _ front rest h
  · have happ : add_indel_call_append ⟨4/5, 30, 0⟩ false ⟨97, 100⟩ ⟨[⟨0⟩], [], false, 0⟩ =
        ⟨[⟨poisson_qscore 97 100 30 40⟩], [⟨100, 97, poisson_qscore 97 100 30 40⟩],
          false, 0⟩ := by
      unfold add_indel_call_append
      rw [if_pos (Or.inl (by norm_num))]
      simp
    rw [add_indel_call_is_het, happ]
    unfold add_indel_call_setHet
    norm_num [GermlineContinuousIndelAlleleInfo.variant_frequency, safeFrac]
  · have happ : add_indel_call_append ⟨4/5, 30, 0⟩ true ⟨50, 100⟩ ⟨[⟨0⟩], [], false, 0⟩ =
        ⟨[⟨poisson_qscore 50 100 30 40⟩], [⟨100, 50, poisson_qscore 50 100 30 40⟩],
          false, 0⟩ := by
      unfold add_indel_call_append
      rw [if_pos (Or.inr rfl)]
      simp
    rw [add_indel_call_is_het, happ]
    unfold add_indel_call_setHet
    norm_num [GermlineContinuousIndelAlleleInfo.variant_frequency, safeFrac]
  · have happ : add_indel_call_append ⟨1/5, 30, 0⟩ false ⟨50, 100⟩ ⟨[⟨0⟩], [], false, 0⟩ =
        ⟨[⟨poisson_qscore 50 100 30 40⟩], [⟨100, 50, poisson_qscore 50 100 30 40⟩],
          false, 0⟩ := by
      unfold add_indel_call_append
      rw [if_pos (Or.inl (by norm_num))]
      simp
    rw [add_indel_call_is_het, happ]
    unfold add_indel_call_setHet
    norm_num [GermlineContinuousIndelAlleleInfo.variant_frequency, safeFrac]

/-- Witness for C9's general heterozygosity rule at the threshold-0.8,
variant-frequency-0.97 scenario. -/
theorem add_indel_call_het_spec_witness :
    ((add_indel_call ⟨4/5, 30, 0⟩ false ⟨97, 100⟩ ⟨[⟨0⟩], [], false, 0⟩).altAlleles =
      ⟨100, 97, poisson_qscore 97 100 30 40⟩ :: []) ∧
    ((add_indel_call ⟨4/5, 30, 0⟩ false ⟨97, 100⟩ ⟨[⟨0⟩], [], false, 0⟩).is_het = true ↔
      (add_indel_call ⟨4/5, 30, 0⟩ false ⟨97, 100⟩ ⟨[⟨0⟩], [], false, 0⟩).altAlleles.length >
          1 ∨
        (⟨100, 97, poisson_qscore 97 100 30 40⟩ :
          GermlineContinuousIndelAlleleInfo).variant_frequency < 1 - (4/5 : ℚ)) := by
  have h : (add_indel_call ⟨4/5, 30, 0⟩ false ⟨97, 100⟩ ⟨[⟨0⟩], [], false, 0⟩).altAlleles =
      ⟨100, 97, poisson_qscore 97 100 30 40⟩ :: [] := by
    rw [add_indel_call_altAlleles]
    unfold add_indel_call_append
    rw [if_pos (Or.inl (by norm_num))]
    simp
  exact ⟨h, add_indel_call_het_spec.1 ⟨4/5, 30, 0⟩ false ⟨97, 100⟩ ⟨[⟨0⟩], [], false, 0⟩
    ⟨100, 97, poisson_qscore 97 100 30 40⟩ [] h⟩


/-- C8: SNP calling on a single-sample locus with total depth 100,
reference base count 90 and one alternate base count 10.  With
reporting threshold 0.05 the alternate allele is reportable (an allele
record for it, carrying its Poisson quality score, is emitted) and the
locus is flagged as a SNP; with threshold 0.2 the alternate allele is
not reportable and a reference-only allele record is emitted instead
(the reference allele's variant fraction 0.9 itself exceeds the
threshold, so the record the forced fallback would emit is already
present and the fallback branch is skipped), so the locus still
receives a quality assignment in both cases. -/
theorem position_snp_call_continuous_scenario (q : ℕ) (noise : ℝ) :
    (position_snp_call_continuous ⟨1/20, q, noise⟩ ⟨[]⟩
        ⟨0, fun b => if b = 0 then 90 else if b = 1 then 10 else 0, 0, false,
          [⟨0⟩], [], false, 0⟩ =
      ⟨0, fun b => if b = 0 then 90 else if b = 1 then 10 else 0, 0, false,
        [⟨poisson_qscore 10 100 q 40⟩],
        [⟨100, 90, 0, poisson_qscore 90 100 q 40, 0⟩,
         ⟨100, 10, 1, poisson_qscore 10 100 q 40, strand_bias 0 0 0 0 noise⟩],
        true, max 0 (poisson_qscore 10 100 q 40)⟩) ∧
    (position_snp_call_continuous ⟨1/5, q, noise⟩ ⟨[]⟩
        ⟨0, fun b => if b = 0 then 90 else if b = 1 then 10 else 0, 0, false,
          [⟨0⟩], [], false, 0⟩ =
      ⟨0, fun b => if b = 0 then 90 else if b = 1 then 10 else 0, 0, false,
        [⟨poisson_qscore 90 100 q 40⟩],
        [⟨100, 90, 0, poisson_qscore 90 100 q 40, 0⟩],
        false, max 0 (poisson_qscore 90 100 q 40)⟩) := by
  constructor
  ·
    have e0 : generateAlleleInfo ⟨1/20, q, noise⟩ ⟨[]⟩ 100 0
        ⟨0, fun b => if b = 0 then 90 else if b = 1 then 10 else 0, 0, false,
          [⟨0⟩], [], false, 0⟩ 0 false =
        ⟨0, fun b => if b = 0 then 90 else if b = 1 then 10 else 0, 0, false,
          [⟨poisson_qscore 90 100 q 40⟩],
          [⟨100, 90, 0, poisson_qscore 90 100 q 40, 0⟩], false, 0⟩ := by
      unfold generateAlleleInfo
      norm_num [safeFrac, List.set, show List.range 1 = [0] from rfl]
    have e1 : generateAlleleInfo ⟨1/20, q, noise⟩ ⟨[]⟩ 100 0
        ⟨0, fun b => if b = 0 then 90 else if b = 1 then 10 else 0, 0, false,
          [⟨poisson_qscore 90 100 q 40⟩],
          [⟨100, 90, 0, poisson_qscore 90 100 q 40, 0⟩], false, 0⟩ 1 false =
        ⟨0, fun b => if b = 0 then 90 else if b = 1 then 10 else 0, 0, false,
          [⟨poisson_qscore 10 100 q 40⟩],
          [⟨100, 90, 0, poisson_qscore 90 100 q 40, 0⟩,
           ⟨100, 10, 1, poisson_qscore 10 100 q 40, strand_bias 0 0 0 0 noise⟩],
          true, 0⟩ := by
      unfold generateAlleleInfo
      norm_num [safeFrac, List.set, List.filter, show List.range 1 = [0] from rfl]
    have e2 : generateAlleleInfo ⟨1/20, q, noise⟩ ⟨[]⟩ 100 0
        ⟨0, fun b => if b = 0 then 90 else if b = 1 then 10 else 0, 0, false,
          [⟨poisson_qscore 10 100 q 40⟩],
          [⟨100, 90, 0, poisson_qscore 90 100 q 40, 0⟩,
           ⟨100, 10, 1, poisson_qscore 10 100 q 40, strand_bias 0 0 0 0 noise⟩],
          true, 0⟩ 2 false =
        ⟨0, fun b => if b = 0 then 90 else if b = 1 then 10 else 0, 0, false,
          [⟨poisson_qscore 10 100 q 40⟩],
          [⟨100, 90, 0, poisson_qscore 90 100 q 40, 0⟩,
           ⟨100, 10, 1, poisson_qscore 10 100 q 40, strand_bias 0 0 0 0 noise⟩],
          true, 0⟩ := by
      unfold generateAlleleInfo
      norm_num [safeFrac, show List.range 1 = [0] from rfl]
    have e3 : generateAlleleInfo ⟨1/20, q, noise⟩ ⟨[]⟩ 100 0
        ⟨0, fun b => if b = 0 then 90 else if b = 1 then 10 else 0, 0, false,
          [⟨poisson_qscore 10 100 q 40⟩],
          [⟨100, 90, 0, poisson_qscore 90 100 q 40, 0⟩,
           ⟨100, 10, 1, poisson_qscore 10 100 q 40, strand_bias 0 0 0 0 noise⟩],
          true, 0⟩ 3 false =
        ⟨0, fun b => if b = 0 then 90 else if b = 1 then 10 else 0, 0, false,
          [⟨poisson_qscore 10 100 q 40⟩],
          [⟨100, 90, 0, poisson_qscore 90 100 q 40, 0⟩,
           ⟨100, 10, 1, poisson_qscore 10 100 q 40, strand_bias 0 0 0 0 noise⟩],
          true, 0⟩ := by
      unfold generateAlleleInfo
      norm_num [safeFrac, show List.range 1 = [0] from rfl]
    have hTD : (List.foldl
        (fun acc base_id => acc + if base_id = 0 then 90 else if base_id = 1 then 10 else 0) 0
        [0, 1, 2, 3] : ℕ) = 100 := by
      norm_num [List.foldl]
    have hfold : List.foldl
        (fun locus base_id => generateAlleleInfo ⟨1/20, q, noise⟩ ⟨[]⟩ 100 0 locus base_id
          locus.isForcedOutput)
        ⟨0, fun b => if b = 0 then 90 else if b = 1 then 10 else 0, 0, false,
          [⟨0⟩], [], false, 0⟩ [0, 1, 2, 3] =
        ⟨0, fun b => if b = 0 then 90 else if b = 1 then 10 else 0, 0, false,
          [⟨poisson_qscore 10 100 q 40⟩],
          [⟨100, 90, 0, poisson_qscore 90 100 q 40, 0⟩,
           ⟨100, 10, 1, poisson_qscore 10 100 q 40, strand_bias 0 0 0 0 noise⟩],
          true, 0⟩ := by
      simp only [List.foldl_cons, List.foldl_nil]
      rw [e0]
      dsimp only
      rw [e1]
      dsimp only
      rw [e2]
      dsimp only
      rw [e3]
    unfold position_snp_call_continuous
    rw [show List.range N_BASE = [0, 1, 2, 3] from rfl]
    dsimp only
    rw [hTD, hfold]
    rfl
  ·
    have e0 : generateAlleleInfo ⟨1/5, q, noise⟩ ⟨[]⟩ 100 0
        ⟨0, fun b => if b = 0 then 90 else if b = 1 then 10 else 0, 0, false,
          [⟨0⟩], [], false, 0⟩ 0 false =
        ⟨0, fun b => if b = 0 then 90 else if b = 1 then 10 else 0, 0, false,
          [⟨poisson_qscore 90 100 q 40⟩],
          [⟨100, 90, 0, poisson_qscore 90 100 q 40, 0⟩], false, 0⟩ := by
      unfold generateAlleleInfo
      norm_num [safeFrac, List.set, show List.range 1 = [0] from rfl]
    have e1 : generateAlleleInfo ⟨1/5, q, noise⟩ ⟨[]⟩ 100 0
        ⟨0, fun b => if b = 0 then 90 else if b = 1 then 10 else 0, 0, false,
          [⟨poisson_qscore 90 100 q 40⟩],
          [⟨100, 90, 0, poisson_qscore 90 100 q 40, 0⟩], false, 0⟩ 1 false =
        ⟨0, fun b => if b = 0 then 90 else if b = 1 then 10 else 0, 0, false,
          [⟨poisson_qscore 90 100 q 40⟩],
          [⟨100, 90, 0, poisson_qscore 90 100 q 40, 0⟩], false, 0⟩ := by
      unfold generateAlleleInfo
      norm_num [safeFrac, show List.range 1 = [0] from rfl]
    have e2 : generateAlleleInfo ⟨1/5, q, noise⟩ ⟨[]⟩ 100 0
        ⟨0, fun b => if b = 0 then 90 else if b = 1 then 10 else 0, 0, false,
          [⟨poisson_qscore 90 100 q 40⟩],
          [⟨100, 90, 0, poisson_qscore 90 100 q 40, 0⟩], false, 0⟩ 2 false =
        ⟨0, fun b => if b = 0 then 90 else if b = 1 then 10 else 0, 0, false,
          [⟨poisson_qscore 90 100 q 40⟩],
          [⟨100, 90, 0, poisson_qscore 90 100 q 40, 0⟩], false, 0⟩ := by
      unfold generateAlleleInfo
      norm_num [safeFrac, show List.range 1 = [0] from rfl]
    have e3 : generateAlleleInfo ⟨1/5, q, noise⟩ ⟨[]⟩ 100 0
        ⟨0, fun b => if b = 0 then 90 else if b = 1 then 10 else 0, 0, false,
          [⟨poisson_qscore 90 100 q 40⟩],
          [⟨100, 90, 0, poisson_qscore 90 100 q 40, 0⟩], false, 0⟩ 3 false =
        ⟨0, fun b => if b = 0 then 90 else if b = 1 then 10 else 0, 0, false,
          [⟨poisson_qscore 90 100 q 40⟩],
          [⟨100, 90, 0, poisson_qscore 90 100 q 40, 0⟩], false, 0⟩ := by
      unfold generateAlleleInfo
      norm_num [safeFrac, show List.range 1 = [0] from rfl]
    have hTD : (List.foldl
        (fun acc base_id => acc + if base_id = 0 then 90 else if base_id = 1 then 10 else 0) 0
        [0, 1, 2, 3] : ℕ) = 100 := by
      norm_num [List.foldl]
    have hfold : List.foldl
        (fun locus base_id => generateAlleleInfo ⟨1/5, q, noise⟩ ⟨[]⟩ 100 0 locus base_id
          locus.isForcedOutput)
        ⟨0, fun b => if b = 0 then 90 else if b = 1 then 10 else 0, 0, false,
          [⟨0⟩], [], false, 0⟩ [0, 1, 2, 3] =
        ⟨0, fun b => if b = 0 then 90 else if b = 1 then 10 else 0, 0, false,
          [⟨poisson_qscore 90 100 q 40⟩],
          [⟨100, 90, 0, poisson_qscore 90 100 q 40, 0⟩], false, 0⟩ := by
      simp only [List.foldl_cons, List.foldl_nil]
      rw [e0]
      dsimp only
      rw [e1]
      dsimp only
      rw [e2]
      dsimp only
      rw [e3]
    unfold position_snp_call_continuous
    rw [show List.range N_BASE = [0, 1, 2, 3] from rfl]
    dsimp only
    rw [hTD, hfold]
    rfl
